import Mathlib

/-!
Verification of the Product-Analytics MCP core.

Shallow embedding of the repository's core pipeline — the structured query
builder (`main.py`), the SQL safety gate (`sql_validator.py`), the schema
cache (`schema_cache.py`), the alias resolvers (`nl_parser.py`,
`llm_adapter.py`) and the NL parser (`nl_parser.py`) — together with theorems
settling the specification claims about them.

Conventions of the embedding:
* Python strings are Lean `String`s; all scanning is done on `String.data`
  (`List Char`).  Python's regex searches are implemented as explicit
  character scanners.  All the regexes used by the source start with a
  word-boundary-anchored token, so scanning candidate positions one character
  at a time is equivalent to `re`'s leftmost, non-overlapping search.
* Python's `re` whitespace class `\s` is modelled by `Char.isWhitespace`
  (space, tab, CR, LF); `\w` by ASCII letters, digits and underscore, which
  is exact for the ASCII inputs this service handles.
* Fallible Python code (raising `ValueError` / `NameError`) is modelled with
  `Except String`.
* Mutable module state (the schema cache) is modelled by explicit state
  passing; the wall clock and the external warehouse fetch are parameters.
-/

/-! ## Character helpers -/

/-- Python's regex word-character class `\w` (ASCII fragment): letters,
digits and underscore. -/
def isWordChar (c : Char) : Bool :=
  c.isAlpha || c.isDigit || c == '_'

/-- Python's regex whitespace class `\s` (the characters produced by the
inputs at hand: space, tab, CR, LF). -/
def isWsChar (c : Char) : Bool :=
  c.isWhitespace

/-- ASCII lower-casing of a character list (Python `str.lower()`). -/
def lowerL (l : List Char) : List Char :=
  l.map Char.toLower

/-- ASCII upper-casing of a character list (Python `str.upper()`). -/
def upperL (l : List Char) : List Char :=
  l.map Char.toUpper

/-- Lower-cased copy of a string (Python `str.lower()`). -/
def lowerS (s : String) : String :=
  ⟨lowerL s.data⟩

/-- Upper-cased copy of a string (Python `str.upper()`). -/
def upperS (s : String) : String :=
  ⟨upperL s.data⟩

/-- Python `needle in hay` substring test, on character lists. -/
def containsSub (needle : List Char) : List Char → Bool
  | [] => needle.isPrefixOf []
  | c :: t => needle.isPrefixOf (c :: t) || containsSub needle t

/-- Python `needle in hay` substring test on strings. -/
def containsSubS (needle hay : String) : Bool :=
  containsSub needle.data hay.data

/-- Value of a list of decimal digit characters (Python `int(...)` on the
digit strings captured by the regexes). -/
def digitsVal (l : List Char) : Nat :=
  l.foldl (fun acc c => acc * 10 + (c.toNat - 48)) 0

/-! ## Counting occurrences of the `SELECT` keyword

`selAtB l` says the list `l` starts (case-insensitively) with `SELECT`;
`countSel` counts all such positions, `noSelB` asserts there are none. -/

/-- The characters of the keyword `SELECT`. -/
def selKw : List Char := ['S', 'E', 'L', 'E', 'C', 'T']

/-- `l` begins with the keyword `SELECT`, case-insensitively. -/
def selAtB (l : List Char) : Bool :=
  selKw.isPrefixOf (upperL l)

/-- Number of case-insensitive occurrences of `SELECT` in `l`. -/
def countSel : List Char → Nat
  | [] => 0
  | c :: t => (if selAtB (c :: t) then 1 else 0) + countSel t

/-- No case-insensitive occurrence of `SELECT` anywhere in `l`. -/
def noSelB : List Char → Bool
  | [] => true
  | c :: t => !selAtB (c :: t) && noSelB t

/-- A string is clean when it contains no `SELECT` occurrence and no
statement separator `;`. -/
def CleanS (s : String) : Prop :=
  noSelB s.data = true ∧ ';' ∉ s.data

instance : DecidablePred CleanS := fun s =>
  inferInstanceAs (Decidable (noSelB s.data = true ∧ ';' ∉ s.data))

/-- Separator strings across which neither a `SELECT` occurrence nor a `;`
can appear. -/
def SepOK (sep : String) : Prop :=
  sep.data ≠ [] ∧ (∀ c ∈ sep.data, Char.toUpper c ∉ selKw) ∧ ';' ∉ sep.data

instance : DecidablePred SepOK := fun sep =>
  inferInstanceAs
    (Decidable (sep.data ≠ [] ∧ (∀ c ∈ sep.data, Char.toUpper c ∉ selKw) ∧ ';' ∉ sep.data))

/-! ## Python `sep.join` and decimal rendering -/

/-- Python's `sep.join(parts)`. -/
def joinSep (sep : String) : List String → String
  | [] => ""
  | [x] => x
  | x :: y :: t => x ++ sep ++ joinSep sep (y :: t)

/-- Character for a decimal digit. -/
def digitChar10 : Nat → Char
  | 0 => '0' | 1 => '1' | 2 => '2' | 3 => '3' | 4 => '4'
  | 5 => '5' | 6 => '6' | 7 => '7' | 8 => '8' | 9 => '9'
  | _ => '*'

/-- Decimal digits of `n`, most significant first; `fuel`-bounded so the
definition is structural (any `fuel > n` is enough). -/
def natStrAux : Nat → Nat → List Char
  | 0, _ => []
  | fuel + 1, n =>
    if n < 10 then [digitChar10 n]
    else natStrAux fuel (n / 10) ++ [digitChar10 (n % 10)]

/-- Python `str(n)` for a non-negative integer. -/
def natStr (n : Nat) : String :=
  ⟨natStrAux (n + 1) n⟩

/-- Python `str(i)` for an integer. -/
def intStr (i : Int) : String :=
  if i < 0 then "-" ++ natStr (-i).toNat else natStr i.toNat

/-! ## Configuration (`config.py`) -/

/-- `config.ALLOWED_TABLES`. -/
def ALLOWED_TABLES : List String :=
  ["gold.churn_rate", "gold.feature_adoption", "gold.ltv",
   "gold.ltv_predicted", "gold.mrr", "gold.user_retention_cohort"]

/-- `config.MAX_ROWS_RETURN`. -/
def MAX_ROWS_RETURN : Int := 2000

/-- `config.MAX_LIMIT_PER_QUERY`. -/
def MAX_LIMIT_PER_QUERY : Int := 5000

/-- `config.DEFAULT_LIMIT`. -/
def DEFAULT_LIMIT : Nat := 50

/-- `config.SCHEMA_CACHE_TTL` (seconds). -/
def SCHEMA_CACHE_TTL : Int := 300

/-! ## Values and payloads (`main.py`)

JSON scalars are integers, strings or `null`; the body of an `in` filter is a
list of scalars, as required by the data model (nested lists and floats are
not modelled). -/

/-- A scalar JSON value as handled by `sanitize_value`. -/
inductive PyScalar
  | pint (n : Int)
  | pstr (s : String)
  | pnull
deriving DecidableEq

/-- A JSON filter value: a scalar or a list of scalars. -/
inductive PyVal
  | scalar (v : PyScalar)
  | plist (elems : List PyScalar)
deriving DecidableEq

/-- One member of the payload's `filters` array (`{col, op, val}`; absent
`op` is represented by the caller passing the dict default `"="`). -/
structure FilterSpec where
  col : String
  op : String
  val : PyVal
deriving DecidableEq

/-- One member of the payload's `order_by` array (`{col, dir}`; absent `dir`
is represented by the caller passing the dict default `"desc"`). -/
structure OrderSpec where
  col : String
  dir : String
deriving DecidableEq

/-- The structured payload consumed by `build_structured_query`.  Absent
`filters`/`group_by`/`agg`/`order_by` keys coincide with their empty-list /
empty-dict defaults, so they are plain lists; `agg` keeps the dict's
insertion order as an association list. -/
structure Payload where
  table : String
  columns : Option (List String)
  filters : List FilterSpec
  group_by : List String
  agg : List (String × String)
  order_by : List OrderSpec
  limit : Option Int
deriving DecidableEq

/-! ## Sanitizers (`main.py`) -/

/-- Double every single quote (Python `s.replace("'", "''")`). -/
def escQuotesL : List Char → List Char
  | [] => []
  | c :: t => if c = '\'' then '\'' :: '\'' :: escQuotesL t else c :: escQuotesL t

/-- Double every single quote, on strings. -/
def escQuotes (s : String) : String :=
  ⟨escQuotesL s.data⟩

/-- `sanitize_identifier`: non-empty and matching `^[A-Za-z0-9_]+$`.
(Python's `$` would also tolerate one trailing newline; identifiers with a
trailing newline are not modelled.) -/
def sanitize_identifier (name : String) : Except String String :=
  if name = "" then .error "empty identifier"
  else if name.data.all (fun c => c.isAlpha || c.isDigit || c == '_') then .ok name
  else .error ("invalid identifier: " ++ name)

/-- `sanitize_value` on a scalar: numbers pass through, `None` becomes
`NULL`, strings are quote-doubled and wrapped in single quotes. -/
def sanitize_scalar : PyScalar → String
  | .pint n => intStr n
  | .pnull => "NULL"
  | .pstr s => "'" ++ escQuotes s ++ "'"

/-- Python `repr` of a scalar as it appears inside `str(list)` (string
`repr` is modelled as plain single-quoting; `repr`'s quote-selection and
escaping for strings containing quotes is not modelled). -/
def pyReprScalar : PyScalar → String
  | .pint n => intStr n
  | .pnull => "None"
  | .pstr s => "'" ++ s ++ "'"

/-- `sanitize_value`: a list value (reached when a non-`in` operator is given
a list) is stringified via `str(list)`, quote-doubled, and quoted. -/
def sanitize_value : PyVal → String
  | .scalar v => sanitize_scalar v
  | .plist l => "'" ++ escQuotes ("[" ++ joinSep ", " (l.map pyReprScalar) ++ "]") ++ "'"

/-! ## The query builder (`main.py`, `build_structured_query`) -/

/-- `Except`-valued map, mirroring a Python `for` loop that can `raise`. -/
def mapE (f : α → Except String β) : List α → Except String (List β)
  | [] => .ok []
  | x :: t =>
    match f x with
    | .error e => .error e
    | .ok y =>
      match mapE f t with
      | .error e => .error e
      | .ok ys => .ok (y :: ys)

/-- Validation of one explicit `columns` entry: an entry that looks like an
aggregate expression (starts with `COUNT(` or contains ` AS `,
case-insensitively) passes through verbatim; otherwise it must be a current
column of the table. -/
def colEntry (table : String) (cols : List String) (c : String) : Except String String :=
  if "COUNT(".data.isPrefixOf (upperL c.data) || containsSub " AS ".data (upperL c.data) then
    .ok c
  else if cols.contains c then .ok c
  else .error ("column " ++ c ++ " not in table " ++ table)

/-- The allowed filter operators. -/
def ALLOWED_OPS : List String :=
  ["=", "==", "!=", "<>", "<", ">", "<=", ">=", "like", "in"]

/-- Rendering of a single filter into a WHERE fragment. -/
def whereFragment (cols : List String) (f : FilterSpec) : Except String String :=
  let op := lowerS f.op
  if ¬ cols.contains f.col then .error ("filter column " ++ f.col ++ " not in table")
  else if ¬ ALLOWED_OPS.contains op then .error ("unsupported operator " ++ op)
  else if op = "in" then
    match f.val with
    | .plist vs => .ok (f.col ++ " IN (" ++ joinSep ", " (vs.map sanitize_scalar) ++ ")")
    | .scalar _ => .error "IN operator requires list value"
  else
    let sv := sanitize_value f.val
    if op = "=" ∨ op = "==" then .ok (f.col ++ " = " ++ sv)
    else if op = "!=" ∨ op = "<>" then .ok (f.col ++ " <> " ++ sv)
    else .ok (f.col ++ " " ++ op ++ " " ++ sv)

/-- The aggregation loop: validates each source column, sanitizes each
alias, and produces the `SUM(src) AS alias` fragments together with the set
of declared aliases. -/
def aggPartsE (cols : List String) :
    List (String × String) → Except String (List String × List String)
  | [] => .ok ([], [])
  | (al, src) :: t =>
    if ¬ cols.contains src then .error ("agg source " ++ src ++ " not in table")
    else
      match sanitize_identifier al with
      | .error e => .error e
      | .ok sa =>
        match aggPartsE cols t with
        | .error e => .error e
        | .ok (ps, als) => .ok (("SUM(" ++ src ++ ") AS " ++ sa) :: ps, sa :: als)

/-- Rendering of a single ORDER BY entry: the column must be a table column,
a declared aggregation alias, or the literal `cnt`; the direction must be
`asc`/`desc`. -/
def orderPart (cols aliases : List String) (o : OrderSpec) : Except String String :=
  let d := lowerS o.dir
  if ¬ cols.contains o.col ∧ ¬ aliases.contains o.col ∧ o.col ≠ "cnt" then
    .error ("order_by column " ++ o.col ++ " not in table or aggregation")
  else if d ≠ "asc" ∧ d ≠ "desc" then .error "order dir must be asc or desc"
  else .ok (o.col ++ " " ++ upperS d)

/-- Python truthiness of `p and p.strip()`: non-empty with at least one
non-whitespace character. -/
def pyNonblank (s : String) : Bool :=
  !(s == "") && s.data.any (fun c => !c.isWhitespace)

/-- `"\n".join(p for p in sql_parts if p and p.strip())`. -/
def pyJoinNonempty (parts : List String) : String :=
  joinSep "\n" (parts.filter pyNonblank)

/-- The `columns` selection block of `build_structured_query`: a falsy
`columns` key yields `*`, otherwise each entry is validated by `colEntry`
and the survivors are comma-joined. -/
def selectClauseRes (table : String) (cols : List String) (columns : Option (List String)) :
    Except String String :=
  match columns with
  | none => .ok "*"
  | some [] => .ok "*"
  | some cs =>
    match mapE (colEntry table cols) cs with
    | .error e => .error e
    | .ok safe => .ok (joinSep ", " safe)

/-- The WHERE clause: empty when there are no fragments. -/
def whereClauseOf (frags : List String) : String :=
  if frags.isEmpty then "" else "WHERE " ++ joinSep " AND " frags

/-- The aggregation fragments: a falsy (empty) `agg` dict defaults to
`COUNT(*) AS cnt`, otherwise the `SUM(...) AS ...` loop runs. -/
def aggOrDefault (cols : List String) (agg : List (String × String)) :
    Except String (List String × List String) :=
  match agg with
  | [] => .ok (["COUNT(*) AS cnt"], ["cnt"])
  | _ :: _ => aggPartsE cols agg

/-- The `group by & agg` block: with a non-empty `group_by` the select list
is replaced by the group-by columns plus the aggregation fragments (default
`COUNT(*) AS cnt`), and the `GROUP BY` clause and declared aliases are
produced. -/
def groupRes (cols : List String) (select0 : String) (group_by : List String)
    (agg : List (String × String)) : Except String (String × String × List String) :=
  match group_by with
  | [] => .ok (select0, "", [])
  | _ :: _ =>
    match group_by.find? (fun g => !cols.contains g) with
    | some g => .error ("group_by column " ++ g ++ " not in table")
    | none =>
      match aggOrDefault cols agg with
      | .error e => .error e
      | .ok (parts, aliases) =>
        .ok (joinSep ", " (group_by ++ parts),
             "GROUP BY " ++ joinSep ", " group_by, aliases)

/-- The `order_by` block. -/
def orderFragRes (cols aliases : List String) (order_by : List OrderSpec) :
    Except String String :=
  if order_by.isEmpty then .ok ""
  else
    match mapE (orderPart cols aliases) order_by with
    | .error e => .error e
    | .ok ps => .ok ("ORDER BY " ++ joinSep ", " ps)

/-- The effective limit: `payload.get("limit") or config.MAX_ROWS_RETURN`,
where both an absent key and a falsy `0` fall back to the row cap. -/
def limitVal (limit : Option Int) : Int :=
  match limit with
  | none => MAX_ROWS_RETURN
  | some n => if n = 0 then MAX_ROWS_RETURN else n

/-- `build_structured_query` (`main.py` lines 38–162).  `getCols` stands for
`schema_cache.get_table_columns`. -/
def build_structured_query (getCols : String → Option (List String)) (p : Payload) :
    Except String String :=
  if p.table = "" ∨ ¬ ALLOWED_TABLES.contains p.table then
    .error "table not allowed or missing"
  else
    match getCols p.table with
    | none => .error ("could not fetch table schema for " ++ p.table)
    | some cols =>
      if cols.isEmpty then .error ("could not fetch table schema for " ++ p.table)
      else
        match selectClauseRes p.table cols p.columns with
        | .error e => .error e
        | .ok select0 =>
          match mapE (whereFragment cols) p.filters with
          | .error e => .error e
          | .ok frags =>
            match groupRes cols select0 p.group_by p.agg with
            | .error e => .error e
            | .ok (select_clause, agg_clause, aliases) =>
              match orderFragRes cols aliases p.order_by with
              | .error e => .error e
              | .ok order_frag =>
                let lim : Int := limitVal p.limit
                if lim ≤ 0 ∨ MAX_LIMIT_PER_QUERY < lim then .error "limit out of bounds"
                else
                  .ok (pyJoinNonempty
                    ["SELECT " ++ select_clause, "FROM " ++ p.table, whereClauseOf frags,
                     agg_clause, order_frag, "LIMIT " ++ intStr lim])

instance {ε α : Type} [DecidableEq ε] [DecidableEq α] : DecidableEq (Except ε α) := fun x y =>
  match x, y with
  | .error a, .error b =>
    if h : a = b then .isTrue (by rw [h]) else .isFalse (by intro hc; cases hc; exact h rfl)
  | .ok a, .ok b =>
    if h : a = b then .isTrue (by rw [h]) else .isFalse (by intro hc; cases hc; exact h rfl)
  | .error _, .ok _ => .isFalse (by intro hc; cases hc)
  | .ok _, .error _ => .isFalse (by intro hc; cases hc)

/-- Schema environment used by the concrete counterexamples: `gold.mrr` has
the single column `year`. -/
def miniGetCols : String → Option (List String) :=
  fun t => if t = "gold.mrr" then some ["year"] else none

/-! ## Claim C1: shape of every compiled SQL string -/

/-- The scalar elements of a list value (empty for scalars); used to state
cleanliness hypotheses about `IN` lists. -/
def pyValElems : PyVal → List PyScalar
  | .scalar _ => []
  | .plist l => l

/-- Column list of `gold.mrr` as given by the spec's concrete scenario. -/
def mrrCols : List String :=
  ["year", "month", "region", "subscription_plan", "total_revenue", "mrr",
   "avg_revenue_per_user"]

/-- Schema environment in which `gold.mrr` carries its full column list. -/
def mrrGetCols : String → Option (List String) :=
  fun t => if t = "gold.mrr" then some mrrCols else none

/-! ## The safety gate (`sql_validator.py`)

The three `BAD_KEYWORDS` regexes and the `FROM` scan are implemented as
character scanners.  Each regex starts with a fixed token, so checking every
position one character at a time (tracking the previous character for `\b`)
is equivalent to `re.search` / `re.findall`. -/

/-- The write/DDL keywords of `BAD_KEYWORDS` (lower-case). -/
def BAD_KEYWORDS_WORDS : List (List Char) :=
  ["insert", "update", "delete", "drop", "create", "alter", "truncate",
   "merge", "grant", "revoke", "replace", "shutdown"].map String.data

/-- `\b` before a token that starts with a word character: start of string
or a non-word character before. -/
def boundaryBefore : Option Char → Bool
  | none => true
  | some c => !isWordChar c

/-- `\b` after a token that ends with a word character: end of string or a
non-word character next. -/
def boundaryAfter : List Char → Bool
  | [] => true
  | c :: _ => !isWordChar c

/-- One position of `\b(insert|…|shutdown)\b`, case-insensitively. -/
def badKwAt (prev : Option Char) (s : List Char) : Bool :=
  boundaryBefore prev &&
    BAD_KEYWORDS_WORDS.any (fun w =>
      w.isPrefixOf (lowerL s) && boundaryAfter (s.drop w.length))

/-- `re.search` for the keyword pattern. -/
def hasScanKw : Option Char → List Char → Bool
  | _, [] => false
  | prev, c :: t => badKwAt prev (c :: t) || hasScanKw (some c) t

/-- One position of `\binto\s+` (first alternative of the export pattern). -/
def intoAt (prev : Option Char) (s : List Char) : Bool :=
  boundaryBefore prev && "into".data.isPrefixOf (lowerL s) &&
    (match s.drop 4 with
     | c :: _ => isWsChar c
     | [] => false)

/-- One position of `outfile\b` (second alternative; note the source regex
has no `\b` before `outfile`). -/
def outfileAt (s : List Char) : Bool :=
  "outfile".data.isPrefixOf (lowerL s) && boundaryAfter (s.drop 7)

/-- `re.search` for `\binto\s+|outfile\b`. -/
def hasScanIntoOutfile : Option Char → List Char → Bool
  | _, [] => false
  | prev, c :: t => intoAt prev (c :: t) || outfileAt (c :: t) || hasScanIntoOutfile (some c) t

/-- `SELECT_ONLY.match`: `^\s*select\s+`, case-insensitively.  The `\s*` run
is maximal without loss since `select` starts with a non-space. -/
def selectOnlyMatch (s : List Char) : Bool :=
  let r := s.dropWhile isWsChar
  "select".data.isPrefixOf (lowerL r) &&
    (match r.drop 6 with
     | c :: _ => isWsChar c
     | [] => false)

/-- The capture class `[a-z0-9_\.]` of the `FROM` scan (the text is already
lower-cased). -/
def tableCharOK (c : Char) : Bool :=
  c.isLower || c.isDigit || c == '_' || c == '.'

/-- One position of `from\s+([a-z0-9_\.]+)` on the lower-cased SQL. -/
def fromCapAt (s : List Char) : Option (List Char) :=
  if "from".data.isPrefixOf s then
    let r := s.drop 4
    let ws := r.takeWhile isWsChar
    if ws.isEmpty then none
    else
      let cap := (r.drop ws.length).takeWhile tableCharOK
      if cap.isEmpty then none else some cap
  else none

/-- `re.findall` of the `FROM` pattern: all captured table tokens.  (One
character at a time; a `from` token cannot begin inside a previous match's
capture for any accepted query, and extra finds only strengthen the check.) -/
def fromScan : List Char → List (List Char)
  | [] => []
  | c :: t =>
    match fromCapAt (c :: t) with
    | some cap => cap :: fromScan t
    | none => fromScan t

/-- `is_safe_sql` (`sql_validator.py` lines 14–28). -/
def is_safe_sql (sql : String) : Bool × String :=
  if sql = "" ∨ sql.data.all isWsChar then (false, "empty query")
  else if ¬ selectOnlyMatch sql.data then (false, "only SELECT queries are allowed")
  else if hasScanKw none sql.data then (false, "disallowed pattern found in SQL")
  else if sql.data.contains ';' then (false, "disallowed pattern found in SQL")
  else if hasScanIntoOutfile none sql.data then (false, "disallowed pattern found in SQL")
  else
    match (fromScan (lowerL sql.data)).find?
        (fun t => !(ALLOWED_TABLES.map lowerS).contains ⟨t⟩) with
    | some t => (false, "table '" ++ (⟨t⟩ : String) ++ "' is not permitted")
    | none => (true, "ok")

/-- A word-bounded, case-insensitive occurrence of one of the `BAD_KEYWORDS`
write/DDL keywords somewhere in the SQL text — the claim's reading of the
keyword screen, stated by decomposition. -/
def KwOccursDecl (sql : String) : Prop :=
  ∃ pre kw post, sql.data = pre ++ kw ++ post ∧ lowerL kw ∈ BAD_KEYWORDS_WORDS ∧
    (match pre.getLast? with
     | none => true
     | some d => !isWordChar d) = true ∧
    boundaryAfter post = true

/-- A word-boundary-preceded, case-insensitive `into` followed by a
whitespace character somewhere in the SQL text. -/
def IntoWsDecl (sql : String) : Prop :=
  ∃ pre kw c post, sql.data = pre ++ kw ++ c :: post ∧ lowerL kw = "into".data ∧
    isWsChar c = true ∧
    (match pre.getLast? with
     | none => true
     | some d => !isWordChar d) = true

/-- The claim's own broader condition: the substring `into` followed by
whitespace anywhere, with no word-boundary requirement. -/
def ContainsIntoWs (sql : String) : Prop :=
  ∃ pre c post, sql.data = pre ++ "into".data ++ c :: post ∧ isWsChar c = true

/-! ## The schema cache (`schema_cache.py`)

The module-level `_CACHE` dict is explicit state; `time.time()` and the
warehouse fetch are parameters.  An entry maps a table to the fetch
timestamp and the stored column list. -/

/-- The cache: `{ table_name: (timestamp_seconds, [column_names]) }`. -/
abbrev SchemaCache := List (String × Int × Option (List String))

/-- Dict lookup. -/
def cacheLookup : SchemaCache → String → Option (Int × Option (List String))
  | [], _ => none
  | (k, v) :: t, key => if k = key then some v else cacheLookup t key

/-- Dict update `_CACHE[t] = v`. -/
def cacheInsert : SchemaCache → String → Int × Option (List String) → SchemaCache
  | [], key, v => [(key, v)]
  | (k, w) :: t, key, v =>
    if k = key then (key, v) :: t else (k, w) :: cacheInsert t key v

/-- The fresh-entry check of `get_table_columns`: the cached columns when the
entry exists, is younger than the TTL, and holds a non-`None` column list. -/
def freshCols (now : Int) (cache : SchemaCache) (t : String) : Option (List String) :=
  match cacheLookup cache t with
  | some (ts, some cols) => if now - ts < SCHEMA_CACHE_TTL then some cols else none
  | _ => none

/-- The failure fallback of `get_table_columns`: the previously stored
columns regardless of staleness (`prev and prev[1] is not None`). -/
def prevCols (cache : SchemaCache) (t : String) : Option (List String) :=
  match cacheLookup cache t with
  | some (_, some prev) => some prev
  | _ => none

/-- Result of one `get_table_columns` call: the returned value, the cache
afterwards, and whether an external fetch was issued. -/
structure CacheResult where
  result : Option (List String)
  cache : SchemaCache
  fetched : Bool
deriving DecidableEq

/-- `get_table_columns` (`schema_cache.py` lines 10–40).  `fetchRes` is the
outcome the external `fetch_table_schema` call would have (`.error` for a
raised exception); `fetched` records whether that call was made. -/
def get_table_columns (now : Int) (fetchRes : Except Unit (List String))
    (cache : SchemaCache) (table_fqn : String) : CacheResult :=
  if ¬ ALLOWED_TABLES.contains table_fqn then ⟨none, cache, false⟩
  else
    match freshCols now cache table_fqn with
    | some cols => ⟨some cols, cache, false⟩
    | none =>
      match fetchRes with
      | .ok cols => ⟨some cols, cacheInsert cache table_fqn (now, some cols), true⟩
      | .error _ =>
        match prevCols cache table_fqn with
        | some prev => ⟨some prev, cache, true⟩
        | none => ⟨none, cache, true⟩

/-! ## The alias resolvers (`nl_parser.py`, `llm_adapter.py`) -/

/-- `TABLE_CANONICAL_MAP` of `nl_parser.py`: per-table canonical alias →
column association lists (dict insertion order preserved). -/
def TABLE_CANONICAL_MAP : String → List (String × String) :=
  fun t =>
    if t = "gold.churn_rate" then
      [("users", "churned_users"), ("churned_users", "churned_users"),
       ("active_users", "active_users"), ("region", "region"), ("year", "year"),
       ("month", "month"), ("churn_rate", "churn_rate")]
    else if t = "gold.feature_adoption" then
      [("feature", "feature_name"), ("users", "feature_users"),
       ("total_active_users", "total_active_users"), ("adoption_rate", "adoption_rate"),
       ("region", "region"), ("year", "year"), ("month", "month")]
    else if t = "gold.ltv" then
      [("region", "region"), ("plan", "subscription_plan"),
       ("subscription_plan", "subscription_plan"), ("avg_ltv", "avg_ltv"),
       ("users", "user_count")]
    else if t = "gold.ltv_predicted" then
      [("year", "year"), ("month", "month"), ("region", "region"),
       ("plan", "subscription_plan"), ("amount", "total_revenue"), ("mrr", "mrr"),
       ("predicted_ltv", "predicted_ltv"), ("avg_revenue_per_user", "avg_revenue_per_user"),
       ("churned_users", "churned_users")]
    else if t = "gold.mrr" then
      [("year", "year"), ("month", "month"), ("region", "region"),
       ("plan", "subscription_plan"), ("amount", "total_revenue"), ("mrr", "mrr"),
       ("avg_revenue_per_user", "avg_revenue_per_user")]
    else if t = "gold.user_retention_cohort" then
      [("region", "region"), ("signup_month", "signup_month"),
       ("activity_month", "activity_month"), ("active_users", "active_users"),
       ("cohort_size", "cohort_size"), ("retention_rate", "retention_rate"),
       ("months_since_signup", "months_since_signup"), ("month", "signup_month")]
    else []

/-- Python `str.strip()`: drop whitespace from both ends. -/
def stripL (l : List Char) : List Char :=
  ((l.dropWhile isWsChar).reverse.dropWhile isWsChar).reverse

/-- Python `str.strip()` on strings. -/
def stripS (s : String) : String :=
  ⟨stripL s.data⟩

/-- `map_alias_to_column` (`nl_parser.py` lines 139–156): canonical lookup on
the lower-cased, stripped alias first, then a case-insensitive exact match
against the schema columns, then a two-way substring match. -/
def map_alias_to_column (getCols : String → Option (List String))
    (table aliasTok : String) : Option String :=
  if aliasTok = "" ∨ table = "" then none
  else
    let a := stripS (lowerS aliasTok)
    match (TABLE_CANONICAL_MAP table).lookup a with
    | some v => some v
    | none =>
      let cols := (getCols table).getD []
      match cols.find? (fun c => lowerS c = a) with
      | some c => some c
      | none =>
        cols.find? (fun c => containsSubS a (lowerS c) || containsSubS (lowerS c) a)

/-- `_resolve_col` (`llm_adapter.py` lines 193–214): exact match first, then
the canonical map (only when the target is a real column), then
case-insensitive, then substring; raising when nothing matches. -/
def resolveCol (getCols : String → Option (List String))
    (table cand : String) : Except String String :=
  if ((getCols table).getD []).contains cand then .ok cand
  else
    match (match (TABLE_CANONICAL_MAP table).lookup (lowerS cand) with
           | some mapped =>
             if ¬ mapped = "" ∧ ((getCols table).getD []).contains mapped then some mapped
             else none
           | none => none) with
    | some m => .ok m
    | none =>
      match ((getCols table).getD []).find? (fun c => lowerS cand = lowerS c) with
      | some c => .ok c
      | none =>
        match ((getCols table).getD []).find? (fun c =>
            containsSubS (lowerS cand) (lowerS c) || containsSubS (lowerS c) (lowerS cand)) with
        | some c => .ok c
        | none => .error ("unknown column '" ++ cand ++ "' for table " ++ table)

/-- Schema environment for the resolver counterexample: a ColumnSet for
`gold.churn_rate` containing a real column literally named `users`. -/
def churnGetCols : String → Option (List String) :=
  fun t => if t = "gold.churn_rate" then some ["users", "churned_users"] else none

/-! ## Limit extraction (`nl_parser.py`, `extract_ints_for_limit`) -/

/-- The limit keywords of `\b(?:top|limit|first|last)\b\s+(\d+)\b`. -/
def LIMIT_KEYWORDS : List String := ["top", "limit", "first", "last"]

/-- One position of the keyword-limit pattern: boundary, keyword
(case-insensitive, tried in alternation order), at least one whitespace
character, a maximal digit run, and a boundary after it. -/
def kwLimitAt (prev : Option Char) (s : List Char) : Option Nat :=
  if boundaryBefore prev then
    match LIMIT_KEYWORDS.find? (fun k => k.data.isPrefixOf (lowerL s)) with
    | none => none
    | some k =>
      if ((s.drop k.data.length).takeWhile isWsChar).isEmpty then none
      else
        if (((s.drop k.data.length).dropWhile isWsChar).takeWhile Char.isDigit).isEmpty then
          none
        else if boundaryAfter (((s.drop k.data.length).dropWhile isWsChar).dropWhile
            Char.isDigit) then
          some (digitsVal (((s.drop k.data.length).dropWhile isWsChar).takeWhile Char.isDigit))
        else none
  else none

/-- `re.findall` of the keyword-limit pattern, in text order. -/
def kwLimitScan : Option Char → List Char → List Nat
  | _, [] => []
  | prev, c :: t =>
    match kwLimitAt prev (c :: t) with
    | some n => n :: kwLimitScan (some c) t
    | none => kwLimitScan (some c) t

/-- One position of the bare-integer pattern `\b(\d+)\b`. -/
def intTokenAt (prev : Option Char) (s : List Char) : Option Nat :=
  if boundaryBefore prev then
    if (s.takeWhile Char.isDigit).isEmpty then none
    else if boundaryAfter (s.dropWhile Char.isDigit) then
      some (digitsVal (s.takeWhile Char.isDigit))
    else none
  else none

/-- `re.findall` of `\b(\d+)\b`, in text order. -/
def intScan : Option Char → List Char → List Nat
  | _, [] => []
  | prev, c :: t =>
    match intTokenAt prev (c :: t) with
    | some n => n :: intScan (some c) t
    | none => intScan (some c) t

/-- `extract_ints_for_limit` (`nl_parser.py` lines 159–172). -/
def extract_ints_for_limit (text : String) : List Nat :=
  if text = "" then []
  else if kwLimitScan none text.data ≠ [] then kwLimitScan none text.data
  else (intScan none text.data).filter (fun n => n < 1900 ∨ n > 2100)

/-- First extracted candidate, else the configured default
(`parse_nl_to_structured` lines 312–313). -/
def headLimit (text : String) : Nat :=
  match extract_ints_for_limit text with
  | [] => DEFAULT_LIMIT
  | n :: _ => n

/-- The sequential clamping of `parse_nl_to_structured` lines 316–322:
`limit <= 0` (here: `= 0`, the captured integers being non-negative) falls
back to the default, then overflow falls back to the row cap. -/
def clampLimit (l : Nat) : Nat :=
  if (if l = 0 then DEFAULT_LIMIT else l) > MAX_LIMIT_PER_QUERY.toNat then
    MAX_ROWS_RETURN.toNat
  else if l = 0 then DEFAULT_LIMIT else l

/-- The limit produced by `parse_nl_to_structured` for a given text. -/
def computeLimit (text : String) : Nat :=
  clampLimit (headLimit text)

/-- A keyword-preceded integer token: the spec-level description of what the
keyword branch of limit extraction returns, stated by decomposition. -/
def KwCandidate (s : List Char) (n : Nat) : Prop :=
  ∃ pre kw ws ds post,
    s = pre ++ kw ++ ws ++ ds ++ post ∧
    lowerL kw ∈ LIMIT_KEYWORDS.map String.data ∧
    (match pre.getLast? with
     | none => true
     | some d => !isWordChar d) = true ∧
    ws ≠ [] ∧ (∀ c ∈ ws, isWsChar c = true) ∧
    ds ≠ [] ∧ (∀ c ∈ ds, Char.isDigit c = true) ∧
    boundaryAfter post = true ∧
    digitsVal ds = n

/-! ## Date extraction (`nl_parser.py`, `extract_date_range`)

The module delegates actual date parsing to the external `dateparser`
library. `dateparser_parse` models that collaborator on the phrase shapes
this module generates ("today", "N days ago", "first/last day of <month>
<year>"); any other input is modelled as unparseable. The current clock,
which `dateparser` reads for "today" and "N days ago", is the explicit
`today` argument. -/

/-- A calendar date as produced by `datetime.date()`. -/
structure PyDate where
  year : Nat
  month : Nat
  day : Nat
deriving DecidableEq

def isLeap (y : Nat) : Bool :=
  (y % 4 == 0 && y % 100 != 0) || y % 400 == 0

def daysInMonth (y m : Nat) : Nat :=
  if m = 2 then (if isLeap y then 29 else 28)
  else if m = 4 ∨ m = 6 ∨ m = 9 ∨ m = 11 then 30
  else 31

def prevDay (d : PyDate) : PyDate :=
  if d.day > 1 then ⟨d.year, d.month, d.day - 1⟩
  else if d.month > 1 then ⟨d.year, d.month - 1, daysInMonth d.year (d.month - 1)⟩
  else ⟨d.year - 1, 12, 31⟩

def subDays : PyDate → Nat → PyDate
  | d, 0 => d
  | d, n + 1 => subDays (prevDay d) n

/-- Two-digit zero padding, as in `date.isoformat()`. -/
def pad2 (n : Nat) : String :=
  if n < 10 then "0" ++ natStr n else natStr n

/-- Four-digit zero padding of the year, as in `date.isoformat()`. -/
def pad4 (n : Nat) : String :=
  if n < 10 then "000" ++ natStr n
  else if n < 100 then "00" ++ natStr n
  else if n < 1000 then "0" ++ natStr n
  else natStr n

/-- `date.isoformat()`: `YYYY-MM-DD`. -/
def isoDate (d : PyDate) : String :=
  pad4 d.year ++ "-" ++ pad2 d.month ++ "-" ++ pad2 d.day

def strOfChars (l : List Char) : String := String.mk l

def MONTH_NAMES : List String :=
  ["january", "february", "march", "april", "may", "june", "july",
   "august", "september", "october", "november", "december"]

/-- Month-name-plus-year recognition inside `dateparser_parse`: a leading
alphabetic token that is a prefix (of length at least three, matching the
3-letter abbreviations the month regex captures) of a month name, then
whitespace and a digit run giving the year. -/
def monthYearOf (s : List Char) : Option (Nat × Nat) :=
  match MONTH_NAMES.findIdx? (fun nm =>
      decide (3 ≤ (s.takeWhile Char.isAlpha).length) &&
      (lowerL (s.takeWhile Char.isAlpha)).isPrefixOf nm.data) with
  | none => none
  | some i =>
    if ((s.dropWhile Char.isAlpha).dropWhile isWsChar) ≠ [] ∧
        ((s.dropWhile Char.isAlpha).dropWhile isWsChar).all Char.isDigit = true then
      some (i + 1, digitsVal ((s.dropWhile Char.isAlpha).dropWhile isWsChar))
    else none

/-- Recognition of the f-string `f"{days} days ago"`. -/
def daysAgoOf (s : List Char) : Option Nat :=
  if s.takeWhile Char.isDigit ≠ [] ∧
      s.drop (s.takeWhile Char.isDigit).length = " days ago".data then
    some (digitsVal (s.takeWhile Char.isDigit))
  else none

/-- Model of `dateparser.parse` on the phrases `extract_date_range`
generates, relative to the current date `today`. -/
def dateparser_parse (today : PyDate) (s : String) : Option PyDate :=
  if s.data = "today".data then some today
  else if "first day of ".data.isPrefixOf s.data then
    match monthYearOf (s.data.drop 13) with
    | some (m, y) => some ⟨y, m, 1⟩
    | none => none
  else if "last day of ".data.isPrefixOf s.data then
    match monthYearOf (s.data.drop 12) with
    | some (m, y) => some ⟨y, m, daysInMonth y m⟩
    | none => none
  else
    match daysAgoOf s.data with
    | some n => some (subDays today n)
    | none => none

/-- One position of `\b(20\d{2})\b` (`extract_date_range` line 184). -/
def yearAt (prev : Option Char) (s : List Char) : Option (List Char) :=
  if boundaryBefore prev then
    match s with
    | c1 :: c2 :: c3 :: c4 :: rest =>
      if c1 = '2' ∧ c2 = '0' ∧ c3.isDigit = true ∧ c4.isDigit = true ∧
          boundaryAfter rest = true then
        some [c1, c2, c3, c4]
      else none
    | _ => none
  else none

/-- `re.search` of `\b(20\d{2})\b`: the first match in text order. -/
def findYear : Option Char → List Char → Option (List Char)
  | _, [] => none
  | prev, c :: t =>
    match yearAt prev (c :: t) with
    | some y => some y
    | none => findYear (some c) t

/-- One position of `last\s+(\d+)\s+day` (case-insensitive, no word
boundaries in the source pattern). -/
def lastNDaysAt (s : List Char) : Option Nat :=
  if "last".data.isPrefixOf (lowerL s) then
    if (s.drop 4).takeWhile isWsChar = [] then none
    else if ((s.drop 4).dropWhile isWsChar).takeWhile Char.isDigit = [] then none
    else if (((s.drop 4).dropWhile isWsChar).dropWhile Char.isDigit).takeWhile isWsChar
        = [] then none
    else if "day".data.isPrefixOf (lowerL ((((s.drop 4).dropWhile isWsChar).dropWhile
        Char.isDigit).dropWhile isWsChar)) then
      some (digitsVal (((s.drop 4).dropWhile isWsChar).takeWhile Char.isDigit))
    else none
  else none

/-- `re.search` of `last\s+(\d+)\s+day`. -/
def lastNDaysSearch : List Char → Option Nat
  | [] => none
  | c :: t =>
    match lastNDaysAt (c :: t) with
    | some n => some n
    | none => lastNDaysSearch t

def MONTH_ABBREVS : List String :=
  ["jan", "feb", "mar", "apr", "may", "jun", "jul", "aug", "sep", "oct", "nov", "dec"]

/-- One position of `(jan|...|dec)[a-z]*\s+(\d{4})` (case-insensitive):
a month abbreviation, trailing letters, whitespace, exactly four digits. -/
def monAbbrevAt (s : List Char) : Option (List Char × List Char) :=
  match MONTH_ABBREVS.find? (fun a => a.data.isPrefixOf (lowerL s)) with
  | none => none
  | some _ =>
    if ((s.drop 3).dropWhile Char.isAlpha).takeWhile isWsChar = [] then none
    else
      match ((s.drop 3).dropWhile Char.isAlpha).dropWhile isWsChar with
      | d1 :: d2 :: d3 :: d4 :: _ =>
        if d1.isDigit && d2.isDigit && d3.isDigit && d4.isDigit then
          some (s.take 3, [d1, d2, d3, d4])
        else none
      | _ => none

/-- `re.search` of the month-name-plus-year pattern. -/
def monthYearSearch : List Char → Option (List Char × List Char)
  | [] => none
  | c :: t =>
    match monAbbrevAt (c :: t) with
    | some p => some p
    | none => monthYearSearch t

/-- Character class of the first capture of the from-to pattern:
`[A-Za-z0-9\-\s,]`. -/
def ftClass1 (c : Char) : Bool :=
  c.isAlpha || c.isDigit || c = '-' || isWsChar c || c = ','

/-- Character class of the second capture: `[A-Za-z0-9\-\s]`. -/
def ftClass2 (c : Char) : Bool :=
  c.isAlpha || c.isDigit || c = '-' || isWsChar c

/-- The `\s+to\s+([A-Za-z0-9\-\s]+)` tail of the from-to pattern, at a
fixed position, with greedy whitespace and a greedy second capture. -/
def grp2Of (r : List Char) : Option (List Char) :=
  if r.takeWhile isWsChar = [] then none
  else if "to".data.isPrefixOf (lowerL (r.dropWhile isWsChar)) then
    if ((r.dropWhile isWsChar).drop 2).takeWhile isWsChar = [] then none
    else if (((r.dropWhile isWsChar).drop 2).dropWhile isWsChar).takeWhile ftClass2
        = [] then none
    else some ((((r.dropWhile isWsChar).drop 2).dropWhile isWsChar).takeWhile ftClass2)
  else none

/-- The lazy first capture `([A-Za-z0-9\-\s,]+?)`: the shortest non-empty
class-char prefix after which the `\s+to\s+...` tail matches. -/
def ftGo (s : List Char) : Nat → Nat → Option (List Char × List Char)
  | _, 0 => none
  | i, fuel + 1 =>
    if i > s.length then none
    else if (s.take i).all ftClass1 then
      match grp2Of (s.drop i) with
      | some g2 => some (s.take i, g2)
      | none => ftGo s (i + 1) fuel
    else none

/-- `re.search` of `from\s+([A-Za-z0-9\-\s,]+?)\s+to\s+([A-Za-z0-9\-\s]+)`
(case-insensitive), with greedy whitespace after `from`. -/
def fromToSearch : List Char → Option (List Char × List Char)
  | [] => none
  | c :: t =>
    if "from".data.isPrefixOf (lowerL (c :: t)) then
      if ((c :: t).drop 4).takeWhile isWsChar = [] then fromToSearch t
      else
        match ftGo (((c :: t).drop 4).dropWhile isWsChar) 1
            ((((c :: t).drop 4).dropWhile isWsChar).length + 1) with
        | some p => some p
        | none => fromToSearch t
    else fromToSearch t

/-- Branch 4 of `extract_date_range` (lines 210–216): explicit
`from ... to ...`. -/
def dateRangeBranch4 (today : PyDate) (s : List Char) :
    Option String × Option String × Option String :=
  match fromToSearch s with
  | some (g1, g2) =>
    match dateparser_parse today (strOfChars g1), dateparser_parse today (strOfChars g2) with
    | some a, some b => (some (isoDate a), some (isoDate b), none)
    | _, _ => (none, none, none)
  | none => (none, none, none)

/-- Branch 3 (lines 201–208): month name plus year. -/
def dateRangeBranch3 (today : PyDate) (s : List Char) :
    Option String × Option String × Option String :=
  match monthYearSearch s with
  | some (ab, y4) =>
    match dateparser_parse today ("first day of " ++ strOfChars ab ++ " " ++ strOfChars y4),
        dateparser_parse today ("last day of " ++ strOfChars ab ++ " " ++ strOfChars y4) with
    | some a, some b => (some (isoDate a), some (isoDate b), none)
    | _, _ => dateRangeBranch4 today s
  | none => dateRangeBranch4 today s

/-- Branch 2 (lines 192–199): "last N days", anchored to the clock. -/
def dateRangeBranch2 (today : PyDate) (s : List Char) :
    Option String × Option String × Option String :=
  match lastNDaysSearch s with
  | some days =>
    match dateparser_parse today "today",
        dateparser_parse today (natStr days ++ " days ago") with
    | some de, some ds => (some (isoDate ds), some (isoDate de), none)
    | _, _ => dateRangeBranch3 today s
  | none => dateRangeBranch3 today s

/-- `extract_date_range` (lines 175–218), with the clock explicit. -/
def extract_date_range (today : PyDate) (text : String) :
    Option String × Option String × Option String :=
  if text = "" then (none, none, none)
  else
    match findYear none text.data with
    | some yt =>
      match dateparser_parse today ("first day of january " ++ strOfChars yt),
          dateparser_parse today ("last day of december " ++ strOfChars yt) with
      | some a, some b => (some (isoDate a), some (isoDate b), some (strOfChars yt))
      | _, _ => dateRangeBranch2 today text.data
    | none => dateRangeBranch2 today text.data

/-! ## The NL parser pipeline (`nl_parser.py`, `parse_nl_to_structured`)

`detect_intent` discards the score downstream (the caller hardcodes 0.75),
so it is modelled as the intent string alone.  The schema cache collaborator
is the `getCols` parameter, the clock is `today`. -/

def detect_intent (text : String) : String :=
  if ["trend", "over time", "monthly", "weekly", "per month", "by month"].any
      (fun k => containsSubS k (lowerS text)) then "trend"
  else if ["top", "most", "highest", "rank"].any
      (fun k => containsSubS k (lowerS text)) then "topk"
  else if ["count", "how many", "number of", "total"].any
      (fun k => containsSubS k (lowerS text)) then "count"
  else if ["average", "avg", "mean"].any
      (fun k => containsSubS k (lowerS text)) then "aggregate"
  else if ["retention", "cohort", "cohort retention"].any
      (fun k => containsSubS k (lowerS text)) then "cohort"
  else "select"

def pick_table_from_nl (text dflt : String) : String :=
  if containsSubS "churn" (lowerS text) || containsSubS "churn rate" (lowerS text) then
    "gold.churn_rate"
  else if containsSubS "feature" (lowerS text) || containsSubS "adoption" (lowerS text) then
    "gold.feature_adoption"
  else if containsSubS "mrr" (lowerS text) || containsSubS "revenue" (lowerS text) then
    "gold.mrr"
  else if containsSubS "ltv predicted" (lowerS text) ||
      containsSubS "predicted ltv" (lowerS text) ||
      containsSubS "predicted" (lowerS text) then
    "gold.ltv_predicted"
  else if containsSubS "ltv" (lowerS text) || containsSubS "lifetime value" (lowerS text) then
    "gold.ltv"
  else if containsSubS "cohort" (lowerS text) || containsSubS "retention" (lowerS text) then
    "gold.user_retention_cohort"
  else dflt

/-- Character class of `\bby\s+([A-Za-z0-9_\-]+)\b`. -/
def byDimClass (c : Char) : Bool :=
  c.isAlpha || c.isDigit || c = '_' || c = '-'

/-- One position of the by-dimension pattern.  The trailing `\b` makes the
engine give back trailing hyphens of the greedy capture until it ends in a
word character. -/
def byDimAt (prev : Option Char) (s : List Char) : Option (List Char) :=
  if boundaryBefore prev then
    if "by".data.isPrefixOf (lowerL s) then
      if (s.drop 2).takeWhile isWsChar = [] then none
      else if ((((s.drop 2).dropWhile isWsChar).takeWhile byDimClass).reverse.dropWhile
          (fun c => !isWordChar c)).reverse = [] then none
      else
        some ((((s.drop 2).dropWhile isWsChar).takeWhile byDimClass).reverse.dropWhile
          (fun c => !isWordChar c)).reverse
    else none
  else none

/-- `re.findall` of the by-dimension pattern; on a match the scan resumes
after the matched extent, as `findall` does. -/
def byDimScanAux : Nat → Option Char → List Char → List (List Char)
  | 0, _, _ => []
  | _, _, [] => []
  | fuel + 1, prev, c :: t =>
    match byDimAt prev (c :: t) with
    | some cap =>
      cap :: byDimScanAux fuel cap.getLast?
        ((c :: t).drop (2 + (((c :: t).drop 2).takeWhile isWsChar).length + cap.length))
    | none => byDimScanAux fuel (some c) t

/-- `extract_by_dimensions` (`nl_parser.py` lines 288–292). -/
def extract_by_dimensions (text : String) : List String :=
  if text = "" then []
  else (byDimScanAux text.data.length none text.data).map (fun cap => strOfChars (lowerL cap))

/-- `re.sub(pattern, " ", s)` for a pattern recognised positionally by
`matchLen` (length of the match at this position, if any); the scan resumes
after each replaced extent. -/
def reSubGeneric (matchLen : Option Char → List Char → Option Nat) :
    Nat → Option Char → List Char → List Char
  | 0, _, s => s
  | fuel + 1, prev, s =>
    match s with
    | [] => []
    | c :: t =>
      match matchLen prev s with
      | some n => ' ' :: reSubGeneric matchLen fuel (s.take n).getLast? (s.drop n)
      | none => c :: reSubGeneric matchLen fuel (some c) t

/-- `re.sub(r"\b" + re.escape(tok) + r"\b", " ", s)` (case-sensitive, as in
the source, which passes no flags at line 241). -/
def subWordToken (tok s : List Char) : List Char :=
  reSubGeneric
    (fun prev r =>
      if boundaryBefore prev && tok.isPrefixOf r && boundaryAfter (r.drop tok.length) then
        some tok.length
      else none)
    s.length none s

/-- Match length of `\b(last|past)\s+\d+\s+day[s]?\b` (case-insensitive) at
one position. -/
def lastPastDaysLen (prev : Option Char) (s : List Char) : Option Nat :=
  if boundaryBefore prev then
    match ["last", "past"].find? (fun k => k.data.isPrefixOf (lowerL s)) with
    | none => none
    | some _ =>
      if (s.drop 4).takeWhile isWsChar = [] then none
      else if ((s.drop 4).dropWhile isWsChar).takeWhile Char.isDigit = [] then none
      else if (((s.drop 4).dropWhile isWsChar).dropWhile Char.isDigit).takeWhile isWsChar
          = [] then none
      else if "day".data.isPrefixOf (lowerL ((((s.drop 4).dropWhile isWsChar).dropWhile
          Char.isDigit).dropWhile isWsChar)) then
        match ((((s.drop 4).dropWhile isWsChar).dropWhile Char.isDigit).dropWhile
            isWsChar).drop 3 with
        | c :: rest =>
          if (c = 's' ∨ c = 'S') ∧ boundaryAfter rest then
            some (s.length - rest.length)
          else if boundaryAfter (c :: rest) then
            some (s.length - (c :: rest).length)
          else none
        | [] => some s.length
      else none
  else none

/-- Match length of `\b(in\s+[A-Za-z]+\s+\d{4})\b` (case-insensitive) at one
position. -/
def inMonthYearLen (prev : Option Char) (s : List Char) : Option Nat :=
  if boundaryBefore prev then
    if "in".data.isPrefixOf (lowerL s) then
      if (s.drop 2).takeWhile isWsChar = [] then none
      else if ((s.drop 2).dropWhile isWsChar).takeWhile Char.isAlpha = [] then none
      else if (((s.drop 2).dropWhile isWsChar).dropWhile Char.isAlpha).takeWhile isWsChar
          = [] then none
      else
        match ((((s.drop 2).dropWhile isWsChar).dropWhile Char.isAlpha).dropWhile
            isWsChar) with
        | d1 :: d2 :: d3 :: d4 :: rest =>
          if d1.isDigit && d2.isDigit && d3.isDigit && d4.isDigit &&
              boundaryAfter rest then
            some (s.length - rest.length)
          else none
        | _ => none
    else none
  else none

def REGION_KEYWORDS : List String := ["in", "for", "from"]

def REGION_STOP_WORDS : List String := ["in", "for", "from", "on", "at"]

/-- Character class of the region capture `[A-Za-z0-9\-\s]`. -/
def regionClass (c : Char) : Bool :=
  c.isAlpha || c.isDigit || c = '-' || isWsChar c

/-- The terminator `(?:,|$|\b(?:in|for|from|on|at)\b)` after a capture whose
last character is `prevC`. -/
def regionTermAt (prevC : Char) (rest : List Char) : Bool :=
  rest = [] || rest.head? = some ',' ||
  (!isWordChar prevC && REGION_STOP_WORDS.any (fun w =>
    w.data.isPrefixOf (lowerL rest) && boundaryAfter (rest.drop w.data.length)))

/-- The lazy capture: extend one class character at a time until the
terminator matches. -/
def regionCapLoop : Nat → Char → List Char → Bool
  | 0, _, _ => false
  | fuel + 1, lastC, rest =>
    if regionTermAt lastC rest then true
    else
      match rest with
      | [] => false
      | c :: t => if regionClass c then regionCapLoop fuel c t else false

/-- One position of the region pattern
`\b(?:in|for|from)\s+([A-Za-z0-9\-\s]+?)(?:,|$|\b(?:in|for|from|on|at)\b)`.
Whitespace characters belong to the capture class, so consuming a single
whitespace character for `\s+` loses no matches. -/
def regionKwAt (prev : Option Char) (s : List Char) : Bool :=
  boundaryBefore prev &&
  (match REGION_KEYWORDS.find? (fun k => k.data.isPrefixOf (lowerL s)) with
   | none => false
   | some k =>
     match s.drop k.data.length with
     | w :: c0 :: rest =>
       isWsChar w && regionClass c0 && regionCapLoop (rest.length + 1) c0 rest
     | _ => false)

/-- `re.search` of the region pattern: does it match anywhere? -/
def regionSearch : Option Char → List Char → Bool
  | _, [] => false
  | prev, c :: t => regionKwAt prev (c :: t) || regionSearch (some c) t

/-- `re.search(r"\b" + re.escape(token) + r"\b", ..., re.I)` existence. -/
def wordTokenSearch (tok : List Char) : Option Char → List Char → Bool
  | prev, [] => boundaryBefore prev && tok.isPrefixOf [] && boundaryAfter []
  | prev, c :: t =>
    (boundaryBefore prev && tok.isPrefixOf (lowerL (c :: t)) &&
      boundaryAfter ((c :: t).drop tok.length)) ||
    wordTokenSearch tok (some c) t

def FALLBACK_REGIONS : List String :=
  ["uk", "ireland", "scotland", "glasgow", "dublin", "berlin", "bengaluru"]

def PLAN_TOKENS : List String :=
  ["pro", "enterprise", "trial", "free", "basic", "premium", "team"]

/-- One position of `\b(pro|enterprise|trial|free|basic|premium|team)\b`. -/
def planTokenAt (prev : Option Char) (s : List Char) : Option String :=
  if boundaryBefore prev then
    PLAN_TOKENS.find? (fun w =>
      w.data.isPrefixOf (lowerL s) && boundaryAfter (s.drop w.data.length))
  else none

/-- `re.search` of the plan pattern, returning the lowered captured token. -/
def planSearch : Option Char → List Char → Option String
  | _, [] => none
  | prev, c :: t =>
    match planTokenAt prev (c :: t) with
    | some w => some w
    | none => planSearch (some c) t

/-- `extract_simple_filters_improved` (`nl_parser.py` lines 221–279).  When
the region pattern of step 3 matches, line 254 reads the unassigned local
`candidate`, so the Python function raises `NameError` there; the model
returns that exception as an error.  The schema cache is `getCols`, the
clock (used by the date extraction of step 1) is `today`. -/
def extract_simple_filters_improved (getCols : String → Option (List String))
    (today : PyDate) (text table : String) : Except String (List FilterSpec) :=
  if text = "" then .ok []
  else
    match extract_date_range today text with
    | (sd, ed, ytok) =>
      let filters1 : List FilterSpec :=
        match ytok with
        | some ys =>
          match map_alias_to_column getCols table "year" with
          | some yc => [⟨yc, "=", .scalar (.pint (digitsVal ys.data))⟩]
          | none => []
        | none => []
      let t1 : List Char :=
        match ytok with
        | some ys => subWordToken ys.data text.data
        | none => text.data
      let subTs : Option String :=
        if sd.isSome ∧ ed.isSome then map_alias_to_column getCols table "subscription_ts"
        else none
      let filters2 : List FilterSpec :=
        match subTs, sd, ed with
        | some tc, some sdv, some edv =>
          filters1 ++ [⟨tc, ">=", .scalar (.pstr sdv)⟩, ⟨tc, "<=", .scalar (.pstr edv)⟩]
        | _, _, _ => filters1
      let t2 : List Char :=
        if subTs.isSome then
          reSubGeneric inMonthYearLen (reSubGeneric lastPastDaysLen t1.length none t1).length
            none (reSubGeneric lastPastDaysLen t1.length none t1)
        else t1
      if regionSearch none t2 then
        .error "NameError: name 'candidate' is not defined"
      else
        let filters4 : List FilterSpec :=
          if filters2.any (fun f => "region".data.isSuffixOf (lowerS f.col).data) then filters2
          else
            match map_alias_to_column getCols table "region" with
            | some rc =>
              match FALLBACK_REGIONS.find? (fun tok =>
                  wordTokenSearch tok.data none text.data) with
              | some tok => filters2 ++ [⟨rc, "=", .scalar (.pstr tok)⟩]
              | none => filters2
            | none => filters2
        let filters5 : List FilterSpec :=
          match planSearch none text.data with
          | some plan =>
            match (map_alias_to_column getCols table "plan").orElse
                (fun _ => map_alias_to_column getCols table "subscription_plan") with
            | some pc => filters4 ++ [⟨pc, "=", .scalar (.pstr plan)⟩]
            | none => filters4
          | none => filters4
        .ok filters5

/-- The result of `parse_nl_to_structured`: the payload dict plus the intent
(the score is the constant 0.75 at line 452 and carries no information). -/
structure ParseOut where
  payload : Payload
  intent : String
deriving DecidableEq

def setdefaultCols (p : Payload) (v : List String) : Payload :=
  match p.columns with
  | some _ => p
  | none => { p with columns := some v }

def setdefaultGb (p : Payload) (v : List String) : Payload :=
  if p.group_by = [] then { p with group_by := v } else p

def setdefaultLimit (p : Payload) (v : Int) : Payload :=
  match p.limit with
  | some _ => p
  | none => { p with limit := some v }

/-- The `if by_dims:` block of `parse_nl_to_structured` (lines 334–361). -/
def byDimsStage (getCols : String → Option (List String)) (table : String) (limit : Nat)
    (by_dims : List String) (p : Payload) : Payload :=
  match by_dims with
  | [] => p
  | dim_alias :: _ =>
    match (map_alias_to_column getCols table dim_alias).orElse
        (fun _ => map_alias_to_column getCols table (dim_alias ++ "s")) with
    | none => p
    | some dim_col =>
      if table = "gold.mrr" ∨ table = "gold.ltv_predicted" ∨ table = "gold.ltv" then
        let metric := ((map_alias_to_column getCols table "amount").orElse
          (fun _ => map_alias_to_column getCols table "total_revenue")).getD "total_revenue"
        { p with
          group_by := [dim_col], agg := [(metric ++ "_sum", metric)],
          order_by := [⟨metric ++ "_sum", "desc"⟩], limit := some (limit : Int) }
      else if table = "gold.churn_rate" then
        let metric := (map_alias_to_column getCols table "churned_users").getD
          "churned_users"
        { p with
          group_by := [dim_col], agg := [(metric ++ "_sum", metric)],
          order_by := [⟨metric ++ "_sum", "desc"⟩], limit := some (limit : Int) }
      else
        match (map_alias_to_column getCols table "users").orElse
            (fun _ => map_alias_to_column getCols table "user_count") with
        | some user_col =>
          { p with
            group_by := [dim_col], agg := [(user_col ++ "_sum", user_col)],
            order_by := [⟨user_col ++ "_sum", "desc"⟩], limit := some (limit : Int) }
        | none =>
          { p with
            group_by := [dim_col], agg := [("cnt", "1")],
            order_by := [⟨"cnt", "desc"⟩], limit := some (limit : Int) }

/-- The intent-specific block (lines 364–440).  The `cohort` arm may retarget
the payload's table; the `aggregate` intent has no arm and falls through to
the final `else` together with `select`. -/
def intentStage (getCols : String → Option (List String)) (intent table : String)
    (cols : List String) (limit : Nat) (p : Payload) : Payload :=
  if intent = "topk" then
    if table = "gold.feature_adoption" then
      let feat := (map_alias_to_column getCols table "feature").getD "feature_name"
      let metric := (map_alias_to_column getCols table "users").getD "feature_users"
      setdefaultLimit
        { setdefaultGb p [feat] with
          agg := [(metric ++ "_sum", metric)],
          order_by := [⟨metric ++ "_sum", "desc"⟩] } (limit : Int)
    else if table = "gold.mrr" ∨ table = "gold.ltv_predicted" then
      let group := (map_alias_to_column getCols table "region").getD "region"
      let metric := (map_alias_to_column getCols table "amount").getD "total_revenue"
      setdefaultLimit
        { setdefaultGb p [group] with
          agg := [(metric ++ "_sum", metric)],
          order_by := [⟨metric ++ "_sum", "desc"⟩] } (limit : Int)
    else
      setdefaultLimit (setdefaultCols p (if cols ≠ [] then cols.take 6 else ["*"]))
        (limit : Int)
  else if intent = "trend" then
    let gb :=
      (match map_alias_to_column getCols table "year" with
       | some yc => [yc]
       | none => []) ++
      (match map_alias_to_column getCols table "month" with
       | some mc => [mc]
       | none => [])
    if gb ≠ [] then
      if table = "gold.churn_rate" then
        let metric := (map_alias_to_column getCols table "churned_users").getD
          "churned_users"
        setdefaultLimit
          { setdefaultGb p gb with
            agg := [(metric ++ "_sum", metric)],
            order_by := [⟨gb.headD "", "desc"⟩, ⟨gb.getD 1 (gb.headD ""), "desc"⟩] }
          (limit : Int)
      else if table = "gold.mrr" ∨ table = "gold.ltv_predicted" then
        let metric := ((map_alias_to_column getCols table "mrr").orElse
          (fun _ => map_alias_to_column getCols table "amount")).getD "total_revenue"
        setdefaultLimit
          { setdefaultGb p gb with
            agg := [(metric ++ "_sum", metric)],
            order_by := [⟨gb.headD "", "desc"⟩, ⟨gb.getD 1 (gb.headD ""), "desc"⟩] }
          (limit : Int)
      else
        setdefaultLimit
          { setdefaultGb p gb with
            agg := if (map_alias_to_column getCols table "active_users").isSome then
              [("count_users", "active_users")] else [] } (limit : Int)
    else
      setdefaultLimit (setdefaultCols p (if cols ≠ [] then cols.take 6 else ["*"]))
        (limit : Int)
  else if intent = "count" then
    if table = "gold.feature_adoption" then
      let metric_col := (map_alias_to_column getCols table "users").getD "feature_users"
      setdefaultLimit { p with agg := [("user_count", metric_col)] } 1
    else
      setdefaultLimit (setdefaultCols p ["COUNT(*) AS cnt"]) 1
  else if intent = "cohort" then
    let table2 :=
      if table ≠ "gold.user_retention_cohort" then "gold.user_retention_cohort" else table
    { p with
      table := table2,
      group_by := [(map_alias_to_column getCols table2 "signup_month").getD "signup_month",
        (map_alias_to_column getCols table2 "activity_month").getD "activity_month"],
      agg := [("active_users_sum",
        (map_alias_to_column getCols table2 "active_users").getD "active_users")],
      order_by := [⟨"signup_month", "desc"⟩, ⟨"activity_month", "desc"⟩],
      limit := some (limit : Int) }
  else
    let preferred :=
      ["feature", "users", "amount", "region", "year", "month", "active_users"].foldl
        (fun acc aliasTok =>
          match map_alias_to_column getCols table aliasTok with
          | some cand => if acc.contains cand then acc else acc ++ [cand]
          | none => acc) []
    { p with
      columns := some (if preferred ≠ [] then preferred.take 6
        else if cols ≠ [] then cols.take 6 else ["*"]),
      limit := some (limit : Int) }

/-- `parse_nl_to_structured` (`nl_parser.py` lines 297–452). -/
def parse_nl_to_structured (getCols : String → Option (List String)) (today : PyDate)
    (nl0 : String) (default_table : Option String) : Except String ParseOut :=
  let nl := stripS nl0
  let intent := detect_intent nl
  let table := pick_table_from_nl nl
    (match default_table with
     | some d => if d = "" then "gold.feature_adoption" else d
     | none => "gold.feature_adoption")
  let cols := (getCols table).getD []
  let limit := computeLimit nl
  match extract_date_range today nl with
  | (_, _, ytok) =>
    let year_filter : Option FilterSpec :=
      match ytok with
      | some ys =>
        match map_alias_to_column getCols table "year" with
        | some yc => some ⟨yc, "=", .scalar (.pint (digitsVal ys.data))⟩
        | none => none
      | none => none
    let p0 : Payload :=
      { table := table, columns := none, filters := [], group_by := [], agg := [],
          order_by := [], limit := none }
    let p1 := byDimsStage getCols table limit (extract_by_dimensions nl) p0
    let p2 := intentStage getCols intent table cols limit p1
    match extract_simple_filters_improved getCols today nl p2.table with
    | .error e => .error e
    | .ok fs =>
      let fs2 : List FilterSpec :=
        match year_filter with
        | some yf => if fs.any (fun f => f.col = yf.col) then fs else fs ++ [yf]
        | none => fs
      .ok ⟨if fs2 ≠ [] then { p2 with filters := fs2 } else p2, intent⟩

/-! ## Theorems -/
theorem countSel_eq_zero {l : List Char} (h : noSelB l = true) : countSel l = 0 := by
  induction l with
  | nil => rfl
  | cons c t ih =>
    have h' := h
    simp only [noSelB, Bool.and_eq_true, Bool.not_eq_true'] at h'
    simp [countSel, h'.1, ih h'.2]

theorem noSelB_cons {c : Char} {t : List Char} (h : noSelB (c :: t) = true) :
    selAtB (c :: t) = false ∧ noSelB t = true := by
  simp only [noSelB, Bool.and_eq_true, Bool.not_eq_true'] at h
  exact h

theorem countSel_eq_one {l : List Char}
    (h1 : selAtB l = true) (h2 : noSelB l.tail = true) : countSel l = 1 := by
  cases l with
  | nil => simp [selAtB, upperL, selKw, List.isPrefixOf] at h1
  | cons c t =>
    simp only [List.tail_cons] at h2
    simp [countSel, h1, countSel_eq_zero h2]

/-! ## Occurrences of `SELECT` across concatenations

An occurrence of the six-letter keyword cannot cross a character that is not
(case-insensitively) one of `S E L C T`; this lets cleanliness compose over
the separators (` `, `,`, `(`, `)`, newline, …) used by the SQL assembler. -/

theorem isPrefixOf_append_mid {p a b : List Char} {c : Char}
    (h : p.isPrefixOf (a ++ c :: b) = true) :
    p.isPrefixOf a = true ∨ c ∈ p := by
  induction a generalizing p with
  | nil =>
    cases p with
    | nil => exact Or.inl rfl
    | cons q qs =>
      simp only [List.nil_append, List.isPrefixOf, Bool.and_eq_true, beq_iff_eq] at h
      exact Or.inr (by simp [h.1])
  | cons x a' ih =>
    cases p with
    | nil => exact Or.inl rfl
    | cons q qs =>
      simp only [List.cons_append, List.isPrefixOf, Bool.and_eq_true, beq_iff_eq] at h
      rcases ih h.2 with h' | h'
      · exact Or.inl (by simp [List.isPrefixOf, h.1, h'])
      · exact Or.inr (List.mem_cons_of_mem _ h')

theorem noSelB_append_sep {a b : List Char} {c : Char}
    (ha : noSelB a = true) (hb : noSelB b = true) (hc : c.toUpper ∉ selKw) :
    noSelB (a ++ c :: b) = true := by
  induction a with
  | nil =>
    have hhead : selAtB (c :: b) = false := by
      simp only [selAtB, upperL, List.map_cons, selKw, List.isPrefixOf]
      cases hS : ('S' == c.toUpper) with
      | false => simp
      | true =>
        exfalso
        exact hc (by simp [selKw, (beq_iff_eq.mp hS).symm])
    simpa [noSelB, hhead] using hb
  | cons x a' ih =>
    have hx := noSelB_cons ha
    have htail : noSelB (a' ++ c :: b) = true := ih hx.2
    have hhead : selAtB (x :: (a' ++ c :: b)) = false := by
      cases hS : selAtB (x :: (a' ++ c :: b)) with
      | false => rfl
      | true =>
        exfalso
        have h' : selKw.isPrefixOf (upperL (x :: a') ++ Char.toUpper c :: upperL b) = true := by
          simpa [selAtB, upperL, List.map_append] using hS
        rcases isPrefixOf_append_mid h' with h'' | h''
        · have : selAtB (x :: a') = true := by simpa [selAtB] using h''
          simp [this] at hx
        · exact hc h''
    simp [noSelB, hhead, htail]

theorem noSelB_append_sepL :
    ∀ (sep : List Char), sep ≠ [] → (∀ c ∈ sep, Char.toUpper c ∉ selKw) →
      ∀ a b : List Char, noSelB a = true → noSelB b = true →
        noSelB (a ++ sep ++ b) = true
  | [], h, _, _, _, _, _ => absurd rfl h
  | [c], _, hc, a, b, ha, hb => by
    have : a ++ [c] ++ b = a ++ c :: b := by simp
    rw [this]
    exact noSelB_append_sep ha hb (hc c (by simp))
  | c :: c' :: cs, _, hc, a, b, ha, hb => by
    have htail : noSelB ((c' :: cs) ++ b) = true := by
      have := noSelB_append_sepL (c' :: cs) (by simp)
        (fun d hd => hc d (List.mem_cons_of_mem _ hd)) [] b rfl hb
      simpa using this
    have : a ++ (c :: c' :: cs) ++ b = a ++ c :: ((c' :: cs) ++ b) := by simp
    rw [this]
    exact noSelB_append_sep ha htail (hc c (by simp))

theorem strData_append (a b : String) : (a ++ b).data = a.data ++ b.data := rfl

theorem cleanS_append_sep (a sep b : String) (hsep : SepOK sep)
    (ha : CleanS a) (hb : CleanS b) : CleanS (a ++ sep ++ b) := by
  constructor
  · show noSelB (a.data ++ sep.data ++ b.data) = true
    exact noSelB_append_sepL sep.data hsep.1 hsep.2.1 a.data b.data ha.1 hb.1
  · show ';' ∉ a.data ++ sep.data ++ b.data
    simp only [List.mem_append]
    rintro ((h | h) | h)
    · exact ha.2 h
    · exact hsep.2.2 h
    · exact hb.2 h

theorem cleanS_empty : CleanS "" := by decide

theorem cleanS_joinSep (sep : String) (hsep : SepOK sep) :
    ∀ l : List String, (∀ s ∈ l, CleanS s) → CleanS (joinSep sep l)
  | [], _ => cleanS_empty
  | [x], h => by simpa [joinSep] using h x (by simp)
  | x :: y :: t, h => by
    have hrest : CleanS (joinSep sep (y :: t)) :=
      cleanS_joinSep sep hsep (y :: t) (fun s hs => h s (List.mem_cons_of_mem _ hs))
    simpa [joinSep] using cleanS_append_sep x sep (joinSep sep (y :: t)) hsep
      (h x (by simp)) hrest

theorem joinSep_mem_isInfix (sep : String) :
    ∀ (l : List String) (s : String), s ∈ l → s.data <:+: (joinSep sep l).data
  | [], s, h => by simp at h
  | [x], s, h => by
    rcases List.mem_singleton.mp h with rfl
    exact List.infix_rfl
  | x :: y :: t, s, h => by
    rcases List.mem_cons.mp h with rfl | h'
    · show s.data <:+: (s ++ sep ++ joinSep sep (y :: t)).data
      rw [strData_append, strData_append]
      exact ((List.prefix_append s.data sep.data).trans
        (List.prefix_append _ _)).isInfix
    · have := joinSep_mem_isInfix sep (y :: t) s h'
      show s.data <:+: (x ++ sep ++ joinSep sep (y :: t)).data
      rw [strData_append]
      exact this.trans (List.suffix_append _ _).isInfix

theorem joinSep_last_isSuffix (sep : String) :
    ∀ (l : List String) (x : String), x.data <:+ (joinSep sep (l ++ [x])).data
  | [], x => by simp [joinSep]
  | a :: t, x => by
    have ih := joinSep_last_isSuffix sep t x
    have hne : t ++ [x] ≠ [] := by simp
    have : joinSep sep ((a :: t) ++ [x]) = a ++ sep ++ joinSep sep (t ++ [x]) := by
      cases t with
      | nil => simp [joinSep]
      | cons b t' => simp [joinSep]
    rw [this, strData_append]
    exact ih.trans (List.suffix_append _ _)

theorem digitChar10_ok (k : Nat) :
    Char.toUpper (digitChar10 k) ∉ selKw ∧ digitChar10 k ≠ ';' := by
  unfold digitChar10
  split <;> decide

theorem noSelB_of_chars {l : List Char}
    (h : ∀ c ∈ l, Char.toUpper c ≠ 'S') : noSelB l = true := by
  induction l with
  | nil => rfl
  | cons c t ih =>
    have hhead : selAtB (c :: t) = false := by
      simp only [selAtB, upperL, List.map_cons, selKw, List.isPrefixOf]
      have := h c (by simp)
      cases hS : ('S' == Char.toUpper c) with
      | false => simp
      | true => exact absurd (beq_iff_eq.mp hS).symm this
    simp [noSelB, hhead, ih (fun c hc => h c (List.mem_cons_of_mem _ hc))]

theorem natStrAux_chars (fuel n : Nat) :
    ∀ c ∈ natStrAux fuel n, Char.toUpper c ∉ selKw ∧ c ≠ ';' := by
  induction fuel generalizing n with
  | zero => intro c hc; simp [natStrAux] at hc
  | succ fuel ih =>
    intro c hc
    simp only [natStrAux] at hc
    split at hc
    · rcases List.mem_singleton.mp hc with rfl
      exact digitChar10_ok n
    · rcases List.mem_append.mp hc with h' | h'
      · exact ih (n / 10) c h'
      · rcases List.mem_singleton.mp h' with rfl
        exact digitChar10_ok (n % 10)

theorem cleanS_natStr (n : Nat) : CleanS (natStr n) := by
  constructor
  · exact noSelB_of_chars (fun c hc => by
      have := (natStrAux_chars (n + 1) n c hc).1
      intro h
      exact this (by simp [selKw, h]))
  · intro hc
    exact (natStrAux_chars (n + 1) n ';' hc).2 rfl

theorem cleanS_intStr (i : Int) : CleanS (intStr i) := by
  unfold intStr
  split
  · have h1 : CleanS (natStr (-i).toNat) := cleanS_natStr _
    constructor
    · show noSelB ('-' :: (natStr (-i).toNat).data) = true
      have hhead : selAtB ('-' :: (natStr (-i).toNat).data) = false := by
        simp [selAtB, upperL, selKw, List.isPrefixOf]
      simp [noSelB, hhead, h1.1]
    · show ';' ∉ '-' :: (natStr (-i).toNat).data
      simp only [List.mem_cons]
      rintro (h | h)
      · exact absurd h.symm (by decide)
      · exact h1.2 h
  · exact cleanS_natStr _

/-- **C1** (counterexample): the builder accepts a filter whose string value
contains `;`, and the compiled SQL then contains a statement-separator
character, contradicting the claim for all accepted intents. -/
theorem c1_compiled_sql_separator_counterexample :
    build_structured_query miniGetCols
      { table := "gold.mrr", columns := none,
        filters := [⟨"year", "=", .scalar (.pstr "a;b")⟩],
        group_by := [], agg := [], order_by := [], limit := none } =
      .ok "SELECT *\nFROM gold.mrr\nWHERE year = 'a;b'\nLIMIT 2000" ∧
    ';' ∈ "SELECT *\nFROM gold.mrr\nWHERE year = 'a;b'\nLIMIT 2000".data := by
  decide

/-! ## Claim C5: limit validation -/

theorem pyJoin_limit_isSuffix (a b c d e x : String) (hx : pyNonblank x = true) :
    x.data <:+ (pyJoinNonempty [a, b, c, d, e, x]).data := by
  unfold pyJoinNonempty
  have h6 : [a, b, c, d, e, x] = [a, b, c, d, e] ++ [x] := rfl
  rw [h6, List.filter_append]
  have hone : List.filter pyNonblank [x] = [x] := by simp [hx]
  rw [hone]
  exact joinSep_last_isSuffix "\n" _ x

/-- **C5** (counterexample): a present `limit` of `0` is falsy in Python, so
`payload.get("limit") or MAX_ROWS_RETURN` silently replaces it with the row
cap instead of failing with `InvalidLimit`: the build succeeds. -/
theorem c5_limit_zero_counterexample :
    build_structured_query miniGetCols
      { table := "gold.mrr", columns := none, filters := [],
        group_by := [], agg := [], order_by := [], limit := some 0 } =
      .ok "SELECT *\nFROM gold.mrr\nLIMIT 2000" := by
  decide

/-- **C5** (amended): a present, non-zero limit outside `(0, MAX_LIMIT_PER_QUERY]`
never yields SQL; an absent limit — and likewise the falsy `limit = 0` — compiles to
the default row cap `MAX_ROWS_RETURN`, which is within bounds. -/
theorem c5_limit_validation (getCols : String → Option (List String)) (p : Payload) :
    (∀ n : Int, p.limit = some n → n ≠ 0 → (n ≤ 0 ∨ MAX_LIMIT_PER_QUERY < n) →
      ∀ s, build_structured_query getCols p ≠ .ok s)
    ∧ ((p.limit = none ∨ p.limit = some 0) →
        ∀ s, build_structured_query getCols p = .ok s →
          ("LIMIT " ++ intStr MAX_ROWS_RETURN).data <:+ s.data)
    ∧ 0 < MAX_ROWS_RETURN ∧ MAX_ROWS_RETURN ≤ MAX_LIMIT_PER_QUERY := by
  refine ⟨?_, ?_, by decide, by decide⟩
  · intro n hlim hnz hout s hok
    simp only [build_structured_query, limitVal] at hok
    rw [hlim] at hok
    simp only [hnz, if_false] at hok
    repeat' split at hok
    all_goals first
      | exact Except.noConfusion hok
      | (simp only [MAX_LIMIT_PER_QUERY] at *; omega)
  · intro hl s hok
    simp only [build_structured_query] at hok
    have hlim : limitVal p.limit = MAX_ROWS_RETURN := by
      rcases hl with h | h <;> rw [h] <;> simp [limitVal]
    rw [hlim] at hok
    repeat' split at hok
    all_goals first
      | exact Except.noConfusion hok
      | (injection hok with h; subst h;
         exact pyJoin_limit_isSuffix _ _ _ _ _ _ (by decide))

/-- **C5** (witness): both conjuncts applied at concrete inputs. -/
theorem c5_limit_validation_witness :
    (∀ s, build_structured_query miniGetCols
      { table := "gold.mrr", columns := none, filters := [],
        group_by := [], agg := [], order_by := [], limit := some 7000 } ≠ .ok s)
    ∧ ("LIMIT " ++ intStr MAX_ROWS_RETURN).data <:+
        "SELECT *\nFROM gold.mrr\nLIMIT 2000".data := by
  constructor
  · exact (c5_limit_validation miniGetCols _).1 7000 rfl (by decide) (by decide)
  · exact (c5_limit_validation miniGetCols
      { table := "gold.mrr", columns := none, filters := [],
        group_by := [], agg := [], order_by := [], limit := none }).2.1
      (Or.inl rfl) _ (by decide)

theorem selAtB_head_ne {c : Char} {l : List Char} (hc : Char.toUpper c ≠ 'S') :
    selAtB (c :: l) = false := by
  simp only [selAtB, upperL, List.map_cons, selKw, List.isPrefixOf]
  cases hS : ('S' == Char.toUpper c) with
  | false => simp
  | true => exact absurd (beq_iff_eq.mp hS).symm hc

theorem noSelB_cons_of_head {c : Char} {l : List Char} (hc : Char.toUpper c ≠ 'S')
    (hl : noSelB l = true) : noSelB (c :: l) = true := by
  simp [noSelB, selAtB_head_ne hc, hl]

theorem cleanS_of_data_eq {a b : String} (h : a.data = b.data) (ha : CleanS a) : CleanS b :=
  ⟨h ▸ ha.1, h ▸ ha.2⟩

theorem cleanS_append_close (a suf : String) (hsuf : SepOK suf) (ha : CleanS a) :
    CleanS (a ++ suf) := by
  have h := cleanS_append_sep a suf "" hsuf ha cleanS_empty
  refine cleanS_of_data_eq ?_ h
  show ((a ++ suf) ++ "").data = (a ++ suf).data
  rw [strData_append]
  exact List.append_nil _

theorem mem_of_containsB {l : List String} {a : String} (h : l.contains a = true) : a ∈ l := by
  simpa using h

theorem allowed_ops_clean : ∀ op ∈ ALLOWED_OPS, CleanS op := by decide

theorem allowed_tables_clean : ∀ t ∈ ALLOWED_TABLES, CleanS t := by decide

theorem mapE_ok_mem {α β : Type} {f : α → Except String β} :
    ∀ {l : List α} {ys : List β}, mapE f l = .ok ys → ∀ y ∈ ys, ∃ x ∈ l, f x = .ok y := by
  intro l
  induction l with
  | nil =>
    intro ys h y hy
    injection h with h'
    subst h'
    simp at hy
  | cons x t ih =>
    intro ys h y hy
    unfold mapE at h
    split at h
    · exact Except.noConfusion h
    case _ y0 hf =>
      split at h
      · exact Except.noConfusion h
      case _ ys0 hrest =>
        injection h with h'
        subst h'
        rcases List.mem_cons.mp hy with rfl | hy'
        · exact ⟨x, by simp, hf⟩
        · rcases ih hrest y hy' with ⟨x', hx', hfx'⟩
          exact ⟨x', List.mem_cons_of_mem _ hx', hfx'⟩

theorem sanitize_identifier_ok {n s : String} (h : sanitize_identifier n = .ok s) : s = n := by
  unfold sanitize_identifier at h
  split at h
  · exact Except.noConfusion h
  split at h
  · injection h with h'; exact h'.symm
  · exact Except.noConfusion h

theorem colEntry_ok {table : String} {cols : List String} {c s : String}
    (h : colEntry table cols c = .ok s) : s = c := by
  unfold colEntry at h
  split at h
  · injection h with h'; exact h'.symm
  split at h
  · injection h with h'; exact h'.symm
  · exact Except.noConfusion h

theorem whereFragment_clean {cols : List String} {f : FilterSpec} {s : String}
    (hcols : ∀ c ∈ cols, CleanS c)
    (hv : CleanS (sanitize_value f.val))
    (hvl : ∀ x ∈ pyValElems f.val, CleanS (sanitize_scalar x))
    (h : whereFragment cols f = .ok s) : CleanS s := by
  simp only [whereFragment] at h
  split at h
  · exact Except.noConfusion h
  case isFalse hcol =>
    split at h
    · exact Except.noConfusion h
    case isFalse hop =>
      have hc : CleanS f.col := hcols _ (mem_of_containsB (not_not.mp hcol))
      have hopc : CleanS (lowerS f.op) :=
        allowed_ops_clean _ (mem_of_containsB (not_not.mp hop))
      split at h
      · -- op = "in"
        split at h
        case _ vs hfv =>
          injection h with h'
          subst h'
          refine cleanS_append_close _ ")" (by decide) ?_
          refine cleanS_append_sep f.col " IN (" _ (by decide) hc ?_
          refine cleanS_joinSep ", " (by decide) _ ?_
          intro x hx
          rcases List.mem_map.mp hx with ⟨v, hv', rfl⟩
          exact hvl v (by simp [pyValElems, hfv, hv'])
        case _ v hfv => exact Except.noConfusion h
      · -- comparison operators
        split at h
        · injection h with h'
          subst h'
          exact cleanS_append_sep f.col " = " _ (by decide) hc hv
        split at h
        · injection h with h'
          subst h'
          exact cleanS_append_sep f.col " <> " _ (by decide) hc hv
        · injection h with h'
          subst h'
          exact cleanS_append_sep (f.col ++ " " ++ lowerS f.op) " " _ (by decide)
            (cleanS_append_sep f.col " " _ (by decide) hc hopc) hv

theorem cleanS_sum_frag {src sa : String} (h1 : CleanS src) (h2 : CleanS sa) :
    CleanS ("SUM(" ++ src ++ ") AS " ++ sa) := by
  have hA : CleanS ("SUM(" ++ src) :=
    cleanS_append_sep "SUM" "(" src (by decide) (by decide) h1
  have hB : CleanS (("SUM(" ++ src) ++ ") " ++ ("AS" ++ " " ++ sa)) :=
    cleanS_append_sep ("SUM(" ++ src) ") " ("AS" ++ " " ++ sa) (by decide) hA
      (cleanS_append_sep "AS" " " sa (by decide) (by decide) h2)
  refine cleanS_of_data_eq ?_ hB
  simp only [strData_append, List.append_assoc,
    show (") " : String).data = [')', ' '] from rfl,
    show ("AS" : String).data = ['A', 'S'] from rfl,
    show (" " : String).data = [' '] from rfl,
    show (") AS " : String).data = [')', ' ', 'A', 'S', ' '] from rfl,
    List.cons_append, List.nil_append]

theorem aggPartsE_clean {cols : List String} (hcols : ∀ c ∈ cols, CleanS c) :
    ∀ {agg : List (String × String)} {ps als : List String},
      (∀ a ∈ agg, CleanS a.1) →
      aggPartsE cols agg = .ok (ps, als) →
      (∀ x ∈ ps, CleanS x) ∧ (∀ a ∈ als, CleanS a) := by
  intro agg
  induction agg with
  | nil =>
    intro ps als _ h
    injection h with h'
    injection h' with h1 h2
    subst h1; subst h2
    simp
  | cons hd t ih =>
    intro ps als hagg h
    obtain ⟨al, src⟩ := hd
    cases hsrcB : cols.contains src with
    | false =>
      exfalso
      have hnm : src ∉ cols := by simpa using hsrcB
      simp [aggPartsE, hnm] at h
    | true =>
      have hm : src ∈ cols := mem_of_containsB hsrcB
      cases hsa : sanitize_identifier al with
      | error e =>
        exfalso
        simp [aggPartsE, hm, hsa] at h
      | ok sa =>
        cases hrec : aggPartsE cols t with
        | error e =>
          exfalso
          simp [aggPartsE, hm, hsa, hrec] at h
        | ok pr =>
          obtain ⟨ps', als'⟩ := pr
          simp only [aggPartsE, hsrcB, hsa, hrec, not_true, Bool.not_eq_true] at h
          rw [if_neg (by simp)] at h
          injection h with h'
          injection h' with h1 h2
          subst h1; subst h2
          have hsc : CleanS src := hcols _ (mem_of_containsB hsrcB)
          have hac : CleanS sa := by
            rw [sanitize_identifier_ok hsa]
            exact hagg (al, src) (by simp)
          have ihr := ih (fun a ha => hagg a (List.mem_cons_of_mem _ ha)) hrec
          constructor
          · intro x hx
            rcases List.mem_cons.mp hx with rfl | hx'
            · exact cleanS_sum_frag hsc hac
            · exact ihr.1 x hx'
          · intro a ha
            rcases List.mem_cons.mp ha with rfl | ha'
            · exact hac
            · exact ihr.2 a ha'

theorem selectClauseRes_clean {table : String} {cols : List String}
    {columns : Option (List String)} {s : String}
    (hsel : ∀ c ∈ columns.getD [], CleanS c)
    (h : selectClauseRes table cols columns = .ok s) : CleanS s := by
  cases columns with
  | none =>
    injection h with h'
    subst h'
    decide
  | some cs =>
    cases cs with
    | nil =>
      injection h with h'
      subst h'
      decide
    | cons c0 cs' =>
      simp only [selectClauseRes] at h
      cases hm : mapE (colEntry table cols) (c0 :: cs') with
      | error e => simp [hm] at h
      | ok safe =>
        simp only [hm] at h
        injection h with h'
        subst h'
        refine cleanS_joinSep ", " (by decide) _ ?_
        intro x hx
        rcases mapE_ok_mem hm x hx with ⟨c, hc, hce⟩
        rw [colEntry_ok hce]
        exact hsel c (by simpa using hc)

theorem groupRes_clean {cols : List String} {select0 : String} {gb : List String}
    {agg : List (String × String)} {sc gc : String} {als : List String}
    (hcols : ∀ c ∈ cols, CleanS c) (hs0 : CleanS select0)
    (hagg : ∀ a ∈ agg, CleanS a.1)
    (h : groupRes cols select0 gb agg = .ok (sc, gc, als)) :
    CleanS sc ∧ CleanS gc ∧ ∀ a ∈ als, CleanS a := by
  cases gb with
  | nil =>
    simp only [groupRes] at h
    injection h with h'
    injection h' with h1 h2
    injection h2 with h3 h4
    subst h1; subst h3; subst h4
    exact ⟨hs0, by decide, by simp⟩
  | cons g0 gb' =>
    simp only [groupRes] at h
    split at h
    next g hfind => exact Except.noConfusion h
    next hfind =>
      have hgb : ∀ g ∈ g0 :: gb', CleanS g := by
        intro g hg
        have hng := List.find?_eq_none.mp hfind g hg
        have hgc : g ∈ cols := by
          by_contra hng2
          have hfalse : cols.contains g = false := by simpa using hng2
          rw [hfalse] at hng
          exact hng rfl
        exact hcols g hgc
      cases hpr : aggOrDefault cols agg with
      | error e => simp [hpr] at h
      | ok pr =>
        obtain ⟨parts, aliases⟩ := pr
        simp only [hpr] at h
        injection h with h'
        injection h' with h1 h2
        injection h2 with h3 h4
        subst h1; subst h3; subst h4
        have hparts : (∀ x ∈ parts, CleanS x) ∧ ∀ a ∈ aliases, CleanS a := by
          cases agg with
          | nil =>
            simp only [aggOrDefault] at hpr
            injection hpr with h''
            injection h'' with h5 h6
            subst h5; subst h6
            constructor
            · intro x hx
              rcases List.mem_singleton.mp hx with rfl
              decide
            · intro a ha
              rcases List.mem_singleton.mp ha with rfl
              decide
          | cons a0 t0 =>
            simp only [aggOrDefault] at hpr
            exact aggPartsE_clean hcols hagg hpr
        refine ⟨?_, ?_, hparts.2⟩
        · refine cleanS_joinSep ", " (by decide) _ ?_
          intro x hx
          rcases List.mem_append.mp hx with hx' | hx'
          · exact hgb x hx'
          · exact hparts.1 x hx'
        · exact cleanS_append_sep "GROUP BY" " " _ (by decide) (by decide)
            (cleanS_joinSep ", " (by decide) _ hgb)

theorem orderPart_clean {cols aliases : List String} {o : OrderSpec} {s : String}
    (hcols : ∀ c ∈ cols, CleanS c) (hals : ∀ a ∈ aliases, CleanS a)
    (h : orderPart cols aliases o = .ok s) : CleanS s := by
  simp only [orderPart] at h
  split at h
  · exact Except.noConfusion h
  case isFalse hcol =>
    split at h
    · exact Except.noConfusion h
    case isFalse hdir =>
      injection h with h'
      subst h'
      have hc : CleanS o.col := by
        by_cases h1 : cols.contains o.col = true
        · exact hcols _ (mem_of_containsB h1)
        · by_cases h2 : aliases.contains o.col = true
          · exact hals _ (mem_of_containsB h2)
          · have hcnt : o.col = "cnt" := by
              by_contra h3
              exact hcol ⟨h1, h2, h3⟩
            rw [hcnt]
            decide
      have hd : lowerS o.dir = "asc" ∨ lowerS o.dir = "desc" := by
        by_contra h3
        push_neg at h3
        exact hdir ⟨h3.1, h3.2⟩
      have hdu : CleanS (upperS (lowerS o.dir)) := by
        rcases hd with h4 | h4 <;> rw [h4] <;> decide
      exact cleanS_append_sep o.col " " _ (by decide) hc hdu

theorem orderFragRes_clean {cols als : List String} {ob : List OrderSpec} {s : String}
    (hcols : ∀ c ∈ cols, CleanS c) (hals : ∀ a ∈ als, CleanS a)
    (h : orderFragRes cols als ob = .ok s) : CleanS s := by
  simp only [orderFragRes] at h
  split at h
  · injection h with h'
    subst h'
    decide
  · cases hm : mapE (orderPart cols als) ob with
    | error e => simp [hm] at h
    | ok ps =>
      simp only [hm] at h
      injection h with h'
      subst h'
      refine cleanS_append_sep "ORDER BY" " " _ (by decide) (by decide) ?_
      refine cleanS_joinSep ", " (by decide) _ ?_
      intro x hx
      rcases mapE_ok_mem hm x hx with ⟨o, ho, hop⟩
      exact orderPart_clean hcols hals hop

theorem pyNonblank_of_head (x : String) (c : Char) (l : List Char)
    (hd : x.data = c :: l) (hc : ¬ c.isWhitespace) : pyNonblank x = true := by
  unfold pyNonblank
  have h1 : (x == "") = false := by
    refine beq_eq_false_iff_ne.mpr ?_
    intro he
    rw [he] at hd
    exact List.noConfusion hd
  rw [h1, hd]
  simp [hc]

theorem assembled_ok (tbl SC W G O : String) (lim : Int) (s : String)
    (hSC : CleanS SC) (hW : CleanS W) (hG : CleanS G) (hO : CleanS O) (hTbl : CleanS tbl)
    (hs : s = pyJoinNonempty
      ["SELECT " ++ SC, "FROM " ++ tbl, W, G, O, "LIMIT " ++ intStr lim]) :
    "SELECT ".data <+: s.data ∧ countSel s.data = 1 ∧ ';' ∉ s.data ∧
    ("FROM " ++ tbl).data <:+: s.data := by
  subst hs
  have hp1 : pyNonblank ("SELECT " ++ SC) = true :=
    pyNonblank_of_head _ 'S' ("ELECT ".data ++ SC.data) rfl (by decide)
  have hp2 : pyNonblank ("FROM " ++ tbl) = true :=
    pyNonblank_of_head _ 'F' ("ROM ".data ++ tbl.data) rfl (by decide)
  have hL : CleanS ("LIMIT " ++ intStr lim) :=
    cleanS_append_sep "LIMIT" " " _ (by decide) (by decide) (cleanS_intStr lim)
  have hF : CleanS ("FROM " ++ tbl) :=
    cleanS_append_sep "FROM" " " tbl (by decide) (by decide) hTbl
  have hfl : List.filter pyNonblank
      ["SELECT " ++ SC, "FROM " ++ tbl, W, G, O, "LIMIT " ++ intStr lim] =
      ("SELECT " ++ SC) :: ("FROM " ++ tbl) ::
        List.filter pyNonblank [W, G, O, "LIMIT " ++ intStr lim] := by
    simp [List.filter_cons, hp1, hp2]
  have hfltc : ∀ x ∈ List.filter pyNonblank [W, G, O, "LIMIT " ++ intStr lim], CleanS x := by
    intro x hx
    have hx' : x ∈ [W, G, O, "LIMIT " ++ intStr lim] := (List.mem_filter.mp hx).1
    simp only [List.mem_cons, List.not_mem_nil, or_false] at hx'
    rcases hx' with rfl | rfl | rfl | rfl
    · exact hW
    · exact hG
    · exact hO
    · exact hL
  have hR : CleanS (joinSep "\n"
      (("FROM " ++ tbl) :: List.filter pyNonblank [W, G, O, "LIMIT " ++ intStr lim])) := by
    refine cleanS_joinSep "\n" (by decide) _ ?_
    intro x hx
    rcases List.mem_cons.mp hx with rfl | hx'
    · exact hF
    · exact hfltc x hx'
  have hjoin : pyJoinNonempty
      ["SELECT " ++ SC, "FROM " ++ tbl, W, G, O, "LIMIT " ++ intStr lim] =
      ("SELECT " ++ SC) ++ "\n" ++ joinSep "\n"
        (("FROM " ++ tbl) :: List.filter pyNonblank [W, G, O, "LIMIT " ++ intStr lim]) := by
    unfold pyJoinNonempty
    rw [hfl]
    rfl
  rw [hjoin]
  have hdata : ((("SELECT " ++ SC) ++ "\n") ++ joinSep "\n"
      (("FROM " ++ tbl) :: List.filter pyNonblank [W, G, O, "LIMIT " ++ intStr lim])).data
      = 'S' :: 'E' :: 'L' :: 'E' :: 'C' :: 'T' :: ' ' :: (SC.data ++ '\n' :: (joinSep "\n"
        (("FROM " ++ tbl) :: List.filter pyNonblank [W, G, O, "LIMIT " ++ intStr lim])).data) := by
    simp [strData_append, List.append_assoc,
      show ("SELECT " : String).data = ['S', 'E', 'L', 'E', 'C', 'T', ' '] from rfl,
      show ("\n" : String).data = ['\n'] from rfl]
  refine ⟨?_, ?_, ?_, ?_⟩
  · refine ⟨SC.data ++ '\n' :: (joinSep "\n"
      (("FROM " ++ tbl) :: List.filter pyNonblank [W, G, O, "LIMIT " ++ intStr lim])).data, ?_⟩
    rw [hdata]
    rfl
  · rw [hdata]
    apply countSel_eq_one
    · rfl
    · show noSelB ('E' :: 'L' :: 'E' :: 'C' :: 'T' :: ' ' :: (SC.data ++ '\n' :: _)) = true
      apply noSelB_cons_of_head (by decide)
      apply noSelB_cons_of_head (by decide)
      apply noSelB_cons_of_head (by decide)
      apply noSelB_cons_of_head (by decide)
      apply noSelB_cons_of_head (by decide)
      apply noSelB_cons_of_head (by decide)
      exact noSelB_append_sep hSC.1 hR.1 (by decide)
  · rw [hdata]
    intro hm
    simp only [List.mem_cons, List.mem_append] at hm
    rcases hm with h | h | h | h | h | h | h | h | h | h
    all_goals first
      | exact absurd h (by decide)
      | exact hSC.2 h
      | exact hR.2 h
  · exact joinSep_mem_isInfix "\n"
      (("SELECT " ++ SC) :: ("FROM " ++ tbl) ::
        List.filter pyNonblank [W, G, O, "LIMIT " ++ intStr lim])
      ("FROM " ++ tbl) (by simp)

/-- **C1** (amended): for every payload the builder accepts, as long as the
schema's column names, the payload's pass-through column expressions, the
rendered filter values and the aggregation aliases contain neither a
(case-insensitive) `SELECT` occurrence nor a `;`, the compiled SQL starts
with `SELECT`, contains exactly one `SELECT` occurrence, contains no
statement separator, and its `FROM` reference names the payload's table,
which is on the allow-list. -/
theorem c1_compiled_sql_shape (getCols : String → Option (List String)) (p : Payload)
    (s : String)
    (hok : build_structured_query getCols p = .ok s)
    (hcols : ∀ c ∈ (getCols p.table).getD [], CleanS c)
    (hsel : ∀ c ∈ p.columns.getD [], CleanS c)
    (hval : ∀ f ∈ p.filters,
      CleanS (sanitize_value f.val) ∧ ∀ x ∈ pyValElems f.val, CleanS (sanitize_scalar x))
    (hagg : ∀ a ∈ p.agg, CleanS a.1) :
    "SELECT ".data <+: s.data ∧ countSel s.data = 1 ∧ ';' ∉ s.data ∧
    ALLOWED_TABLES.contains p.table = true ∧ ("FROM " ++ p.table).data <:+: s.data := by
  simp only [build_structured_query] at hok
  split at hok
  · exact Except.noConfusion hok
  case isFalse hT =>
    have hTc : ALLOWED_TABLES.contains p.table = true := by
      by_contra hB
      exact hT (Or.inr hB)
    have hTbl : CleanS p.table := allowed_tables_clean _ (mem_of_containsB hTc)
    split at hok
    · exact Except.noConfusion hok
    next cols hgc =>
      have hcolsC : ∀ c ∈ cols, CleanS c := by
        rw [hgc] at hcols
        simpa using hcols
      split at hok
      · exact Except.noConfusion hok
      split at hok
      · exact Except.noConfusion hok
      next select0 hs0 =>
        have hs0c : CleanS select0 := selectClauseRes_clean hsel hs0
        split at hok
        · exact Except.noConfusion hok
        next frags hfr =>
          have hW : CleanS (whereClauseOf frags) := by
            unfold whereClauseOf
            split
            · exact cleanS_empty
            · refine cleanS_append_sep "WHERE" " " _ (by decide) (by decide) ?_
              refine cleanS_joinSep " AND " (by decide) _ ?_
              intro x hx
              rcases mapE_ok_mem hfr x hx with ⟨f, hf, hwf⟩
              exact whereFragment_clean hcolsC (hval f hf).1 (hval f hf).2 hwf
          split at hok
          · exact Except.noConfusion hok
          next sc gc als hgr =>
            have hgrc := groupRes_clean hcolsC hs0c hagg hgr
            split at hok
            · exact Except.noConfusion hok
            next order_frag hor =>
              have hoc : CleanS order_frag := orderFragRes_clean hcolsC hgrc.2.2 hor
              split at hok
              · exact Except.noConfusion hok
              injection hok with hs'
              have := assembled_ok p.table sc (whereClauseOf frags) gc order_frag
                (limitVal p.limit) s hgrc.1 hW hgrc.2.1 hoc hTbl hs'.symm
              exact ⟨this.1, this.2.1, this.2.2.1, hTc, this.2.2.2⟩

/-- **C1** (witness): the amended theorem applied to the spec's own
MRR-by-region payload. -/
theorem c1_compiled_sql_shape_witness :
    "SELECT ".data <+:
      ("SELECT region, SUM(total_revenue) AS total_revenue_sum\nFROM gold.mrr\nWHERE year = 2025\nGROUP BY region\nORDER BY total_revenue_sum DESC\nLIMIT 50" : String).data ∧
    countSel ("SELECT region, SUM(total_revenue) AS total_revenue_sum\nFROM gold.mrr\nWHERE year = 2025\nGROUP BY region\nORDER BY total_revenue_sum DESC\nLIMIT 50" : String).data = 1 ∧
    ';' ∉ ("SELECT region, SUM(total_revenue) AS total_revenue_sum\nFROM gold.mrr\nWHERE year = 2025\nGROUP BY region\nORDER BY total_revenue_sum DESC\nLIMIT 50" : String).data ∧
    ALLOWED_TABLES.contains "gold.mrr" = true ∧
    ("FROM " ++ "gold.mrr").data <:+:
      ("SELECT region, SUM(total_revenue) AS total_revenue_sum\nFROM gold.mrr\nWHERE year = 2025\nGROUP BY region\nORDER BY total_revenue_sum DESC\nLIMIT 50" : String).data :=
  c1_compiled_sql_shape mrrGetCols
    { table := "gold.mrr", columns := none,
      filters := [⟨"year", "=", .scalar (.pint 2025)⟩],
      group_by := ["region"], agg := [("total_revenue_sum", "total_revenue")],
      order_by := [⟨"total_revenue_sum", "desc"⟩], limit := some 50 }
    _ (by decide) (by decide) (by decide) (by decide) (by decide)

/-- **C7** (counterexample): the multi-statement input is rejected, but with
the same generic reason `"disallowed pattern found in SQL"` that a pure
write-keyword violation receives — the reason does not specifically identify
a statement-separator violation. -/
theorem c7_separator_reason_counterexample :
    is_safe_sql "SELECT * FROM gold.mrr; DROP TABLE gold.mrr" =
      (false, "disallowed pattern found in SQL") ∧
    is_safe_sql "SELECT drop FROM gold.mrr" =
      (false, "disallowed pattern found in SQL") ∧
    ';' ∉ ("SELECT drop FROM gold.mrr" : String).data := by
  refine ⟨by decide, by decide, by decide⟩

/-- **C7** (amended): the Safety Gate rejects the multi-statement input, with
the generic disallowed-pattern reason shared by the keyword, separator and
export checks — a reason still distinct from the empty-query, not-a-SELECT
and table-not-permitted reasons. -/
theorem c7_separator_rejected :
    is_safe_sql "SELECT * FROM gold.mrr; DROP TABLE gold.mrr" =
      (false, "disallowed pattern found in SQL") ∧
    ("disallowed pattern found in SQL" : String) ≠ "empty query" ∧
    ("disallowed pattern found in SQL" : String) ≠ "only SELECT queries are allowed" ∧
    ("disallowed pattern found in SQL" : String) ≠ "ok" := by
  refine ⟨by decide, by decide, by decide, by decide⟩

/-! ## Claim C10: the keyword screen is purely textual -/

theorem prefixOf_append_self : ∀ (l r : List Char), l.isPrefixOf (l ++ r) = true
  | [], _ => by simp [List.isPrefixOf]
  | c :: t, r => by simp [List.isPrefixOf, prefixOf_append_self t r]

theorem hasScanKw_complete :
    ∀ (pre : List Char) (prev : Option Char) (kw post : List Char),
      lowerL kw ∈ BAD_KEYWORDS_WORDS →
      (match pre.getLast? with
       | none => boundaryBefore prev
       | some d => !isWordChar d) = true →
      boundaryAfter post = true →
      hasScanKw prev (pre ++ kw ++ post) = true := by
  intro pre
  induction pre with
  | nil =>
    intro prev kw post hmem hb ha
    have hkne : kw ≠ [] := by
      intro h
      subst h
      revert hmem
      decide
    obtain ⟨k0, kt, rfl⟩ : ∃ k0 kt, kw = k0 :: kt := by
      cases kw with
      | nil => exact absurd rfl hkne
      | cons k0 kt => exact ⟨k0, kt, rfl⟩
    show hasScanKw prev ((k0 :: kt) ++ post) = true
    have hat : badKwAt prev ((k0 :: kt) ++ post) = true := by
      unfold badKwAt
      rw [Bool.and_eq_true]
      refine ⟨hb, ?_⟩
      refine List.any_eq_true.mpr ⟨lowerL (k0 :: kt), hmem, ?_⟩
      rw [Bool.and_eq_true]
      constructor
      · have : lowerL ((k0 :: kt) ++ post) = lowerL (k0 :: kt) ++ lowerL post := by
          simp [lowerL]
        rw [this]
        exact prefixOf_append_self _ _
      · have hlen : (lowerL (k0 :: kt)).length = (k0 :: kt).length := by
          simp [lowerL]
        rw [hlen, List.drop_left]
        exact ha
    show (badKwAt prev ((k0 :: kt) ++ post) || hasScanKw (some k0) (kt ++ post)) = true
    rw [Bool.or_eq_true]
    exact Or.inl hat
  | cons x pre' ih =>
    intro prev kw post hmem hb ha
    have hb' : (match pre'.getLast? with
        | none => boundaryBefore (some x)
        | some d => !isWordChar d) = true := by
      cases pre' with
      | nil => simpa [boundaryBefore] using hb
      | cons y t => simpa [List.getLast?_cons_cons] using hb
    have := ih (some x) kw post hmem hb' ha
    show (badKwAt prev (x :: (pre' ++ kw ++ post)) || hasScanKw (some x) (pre' ++ kw ++ post)) = true
    rw [Bool.or_eq_true]
    exact Or.inr this

theorem hasScanIntoOutfile_complete :
    ∀ (pre : List Char) (prev : Option Char) (kw : List Char) (c : Char) (post : List Char),
      lowerL kw = "into".data →
      isWsChar c = true →
      (match pre.getLast? with
       | none => boundaryBefore prev
       | some d => !isWordChar d) = true →
      hasScanIntoOutfile prev (pre ++ kw ++ c :: post) = true := by
  intro pre
  induction pre with
  | nil =>
    intro prev kw c post hlw hws hb
    have hkne : kw.length = 4 := by
      have : (lowerL kw).length = 4 := by rw [hlw]; rfl
      simpa [lowerL] using this
    obtain ⟨k0, kt, rfl⟩ : ∃ k0 kt, kw = k0 :: kt := by
      cases kw with
      | nil => simp at hkne
      | cons k0 kt => exact ⟨k0, kt, rfl⟩
    have hat : intoAt prev ((k0 :: kt) ++ c :: post) = true := by
      unfold intoAt
      rw [Bool.and_eq_true, Bool.and_eq_true]
      refine ⟨⟨hb, ?_⟩, ?_⟩
      · have : lowerL ((k0 :: kt) ++ c :: post) = lowerL (k0 :: kt) ++ lowerL (c :: post) := by
          simp [lowerL]
        rw [this, ← hlw]
        exact prefixOf_append_self _ _
      · have h4 : ((k0 :: kt) ++ c :: post).drop 4 = c :: post := by
          rw [← hkne]
          exact List.drop_left _ _
        rw [h4]
        exact hws
    show (intoAt prev ((k0 :: kt) ++ c :: post) ||
      outfileAt ((k0 :: kt) ++ c :: post) ||
      hasScanIntoOutfile (some k0) (kt ++ c :: post)) = true
    rw [Bool.or_eq_true, Bool.or_eq_true]
    exact Or.inl (Or.inl hat)
  | cons x pre' ih =>
    intro prev kw c post hlw hws hb
    have hb' : (match pre'.getLast? with
        | none => boundaryBefore (some x)
        | some d => !isWordChar d) = true := by
      cases pre' with
      | nil => simpa [boundaryBefore] using hb
      | cons y t => simpa [List.getLast?_cons_cons] using hb
    have := ih (some x) kw c post hlw hws hb'
    show (intoAt prev (x :: (pre' ++ kw ++ c :: post)) ||
      outfileAt (x :: (pre' ++ kw ++ c :: post)) ||
      hasScanIntoOutfile (some x) (pre' ++ kw ++ c :: post)) = true
    rw [Bool.or_eq_true]
    exact Or.inr this

/-- **C10** (counterexample): `"SELECT minto FROM gold.mrr"` contains the
substring `into` followed by whitespace, yet the gate accepts it — the
source pattern `\binto\s+` requires a word boundary the claim omits. -/
theorem c10_into_substring_counterexample :
    is_safe_sql "SELECT minto FROM gold.mrr" = (true, "ok") ∧
    ContainsIntoWs "SELECT minto FROM gold.mrr" := by
  constructor
  · decide
  · exact ⟨"SELECT m".data, ' ', "FROM gold.mrr".data, by decide, by decide⟩

/-- **C10** (amended): the keyword screen is purely textual: any
word-bounded write/DDL keyword occurrence anywhere — quoted string literals
included — or any word-boundary-preceded `into` followed by whitespace,
makes `is_safe_sql` reject, whatever else the statement contains. -/
theorem c10_keyword_screen (sql : String)
    (h : KwOccursDecl sql ∨ IntoWsDecl sql) :
    (is_safe_sql sql).1 = false := by
  unfold is_safe_sql
  have hcontra : hasScanKw none sql.data = true ∨ hasScanIntoOutfile none sql.data = true := by
    rcases h with ⟨pre, kw, post, hdata, hmem, hb, ha⟩ | ⟨pre, kw, c, post, hdata, hlw, hws, hb⟩
    · left
      rw [hdata]
      exact hasScanKw_complete pre none kw post hmem (by
        cases hpl : pre.getLast? with
        | none => rfl
        | some d => rw [hpl] at hb; exact hb) ha
    · right
      rw [hdata]
      exact hasScanIntoOutfile_complete pre none kw c post hlw hws (by
        cases hpl : pre.getLast? with
        | none => rfl
        | some d => rw [hpl] at hb; exact hb)
  split
  · rfl
  split
  · rfl
  split
  · rfl
  split
  · rfl
  split
  · rfl
  exfalso
  rcases hcontra with hc | hc
  · exact absurd hc (by assumption)
  · exact absurd hc (by assumption)

/-- **C10** (witness): a `drop` inside a quoted string literal is enough to
be rejected. -/
theorem c10_keyword_screen_witness :
    (is_safe_sql "SELECT 'a drop b' FROM gold.mrr").1 = false :=
  c10_keyword_screen _ (Or.inl
    ⟨"SELECT 'a ".data, "drop".data, " b' FROM gold.mrr".data,
      by decide, by decide, by decide, by decide⟩)

/-- **C2** (counterexample): a disallowed table and an allowed table whose
fetch fails with an empty cache both return the same bare `None` — the "not
allowed" and "schema unavailable" outcomes are not distinguishable. -/
theorem c2_outcomes_indistinguishable_counterexample :
    (get_table_columns 0 (.error ()) [] "bad.table").result = none ∧
    (get_table_columns 0 (.error ()) [] "gold.mrr").result = none ∧
    (get_table_columns 0 (.error ()) [] "bad.table").result =
      (get_table_columns 0 (.error ()) [] "gold.mrr").result := by
  refine ⟨by decide, by decide, by decide⟩

/-- **C2** (amended): `get_table_columns` satisfies the claimed case
analysis — no fetch and no result for a disallowed table; the fresh cached
columns without a fetch; on a miss, a fetch whose success replaces the entry
and whose failure falls back to any previously stored columns — except that
the "not allowed" and "schema unavailable" outcomes are both the same
`None`, not distinguishable values. -/
theorem c2_cache_case_analysis (now : Int) (fetchRes : Except Unit (List String))
    (cache : SchemaCache) (t : String) :
    (¬ ALLOWED_TABLES.contains t = true →
      get_table_columns now fetchRes cache t = ⟨none, cache, false⟩)
    ∧ (∀ cols, ALLOWED_TABLES.contains t = true →
        freshCols now cache t = some cols →
        get_table_columns now fetchRes cache t = ⟨some cols, cache, false⟩)
    ∧ (∀ cols, ALLOWED_TABLES.contains t = true →
        freshCols now cache t = none → fetchRes = .ok cols →
        get_table_columns now fetchRes cache t =
          ⟨some cols, cacheInsert cache t (now, some cols), true⟩)
    ∧ (∀ prev, ALLOWED_TABLES.contains t = true →
        freshCols now cache t = none → fetchRes = .error () →
        prevCols cache t = some prev →
        get_table_columns now fetchRes cache t = ⟨some prev, cache, true⟩)
    ∧ (ALLOWED_TABLES.contains t = true →
        freshCols now cache t = none → fetchRes = .error () →
        prevCols cache t = none →
        get_table_columns now fetchRes cache t = ⟨none, cache, true⟩) := by
  refine ⟨?_, ?_, ?_, ?_, ?_⟩
  · intro h
    have hnm : t ∉ ALLOWED_TABLES := fun hm => h (by simpa using hm)
    simp [get_table_columns, hnm]
  · intro cols hA hF
    simp [get_table_columns, mem_of_containsB hA, hF]
  · intro cols hA hF hfetch
    simp [get_table_columns, mem_of_containsB hA, hF, hfetch]
  · intro prev hA hF hfetch hP
    simp [get_table_columns, mem_of_containsB hA, hF, hfetch, hP]
  · intro hA hF hfetch hP
    simp [get_table_columns, mem_of_containsB hA, hF, hfetch, hP]

/-- **C2** (witness): the five cases at concrete inputs — disallowed table;
fresh hit; successful refresh; stale fallback after a failed fetch; bare
`None` after a failed fetch with an empty cache. -/
theorem c2_cache_case_analysis_witness :
    get_table_columns 0 (.error ()) [] "bad.table" = ⟨none, [], false⟩ ∧
    get_table_columns 100 (.error ()) [("gold.mrr", 0, some ["year"])] "gold.mrr" =
      ⟨some ["year"], [("gold.mrr", 0, some ["year"])], false⟩ ∧
    get_table_columns 0 (.ok ["year"]) [] "gold.mrr" =
      ⟨some ["year"], [("gold.mrr", 0, some ["year"])], true⟩ ∧
    get_table_columns 1000 (.error ()) [("gold.mrr", 0, some ["year"])] "gold.mrr" =
      ⟨some ["year"], [("gold.mrr", 0, some ["year"])], true⟩ ∧
    get_table_columns 0 (.error ()) [] "gold.mrr" = ⟨none, [], true⟩ := by
  refine ⟨?_, ?_, ?_, ?_, ?_⟩
  · exact (c2_cache_case_analysis 0 (.error ()) [] "bad.table").1 (by decide)
  · exact (c2_cache_case_analysis 100 (.error ()) _ "gold.mrr").2.1 ["year"]
      (by decide) (by decide)
  · exact (c2_cache_case_analysis 0 (.ok ["year"]) [] "gold.mrr").2.2.1 ["year"]
      (by decide) (by decide) rfl
  · exact (c2_cache_case_analysis 1000 (.error ()) _ "gold.mrr").2.2.2.1 ["year"]
      (by decide) (by decide) rfl (by decide)
  · exact (c2_cache_case_analysis 0 (.error ()) [] "gold.mrr").2.2.2.2
      (by decide) (by decide) rfl (by decide)

/-- **C4** (counterexample): with a ColumnSet containing a real column
`users`, `map_alias_to_column` still returns the canonical redirect
`churned_users` — the exact-match-first rule (1) does not hold for this
resolver implementation. -/
theorem c4_exact_match_counterexample :
    map_alias_to_column churnGetCols "gold.churn_rate" "users" = some "churned_users" ∧
    "users" ∈ (churnGetCols "gold.churn_rate").getD [] ∧
    some "churned_users" ≠ some "users" := by
  refine ⟨by decide, by decide, by decide⟩

/-- **C4** (amended): the full resolution order of each resolver.
`_resolve_col` applies the claimed order: (1) an exact (case-sensitive) hit
on a real column; else (2) the canonical alias table on the lower-cased
candidate, gated on the target being a non-empty real column; else (3) the
first case-insensitive exact match; else (4) the first substring match in
schema order, raising when none matches.  `map_alias_to_column` instead
consults the canonical alias table FIRST, regardless of the ColumnSet, and
only then applies the case-insensitive exact and substring rules; empty
inputs yield `None`. -/
theorem c4_resolver_order (getCols : String → Option (List String)) (table cand : String) :
    (cand ∈ (getCols table).getD [] → resolveCol getCols table cand = .ok cand)
    ∧ (∀ m, cand ∉ (getCols table).getD [] →
        (TABLE_CANONICAL_MAP table).lookup (lowerS cand) = some m →
        m ≠ "" → m ∈ (getCols table).getD [] →
        resolveCol getCols table cand = .ok m)
    ∧ (∀ c, cand ∉ (getCols table).getD [] →
        (match (TABLE_CANONICAL_MAP table).lookup (lowerS cand) with
         | some m => m = "" ∨ m ∉ (getCols table).getD []
         | none => True) →
        ((getCols table).getD []).find? (fun c2 => lowerS cand = lowerS c2) = some c →
        resolveCol getCols table cand = .ok c)
    ∧ (cand ∉ (getCols table).getD [] →
        (match (TABLE_CANONICAL_MAP table).lookup (lowerS cand) with
         | some m => m = "" ∨ m ∉ (getCols table).getD []
         | none => True) →
        ((getCols table).getD []).find? (fun c2 => lowerS cand = lowerS c2) = none →
        resolveCol getCols table cand =
          (match ((getCols table).getD []).find? (fun c2 =>
              containsSubS (lowerS cand) (lowerS c2) ||
              containsSubS (lowerS c2) (lowerS cand)) with
           | some c => .ok c
           | none => .error ("unknown column '" ++ cand ++ "' for table " ++ table)))
    ∧ (∀ target, table ≠ "" → cand ≠ "" →
        (TABLE_CANONICAL_MAP table).lookup (stripS (lowerS cand)) = some target →
        map_alias_to_column getCols table cand = some target)
    ∧ (∀ c, table ≠ "" → cand ≠ "" →
        (TABLE_CANONICAL_MAP table).lookup (stripS (lowerS cand)) = none →
        ((getCols table).getD []).find? (fun c2 => lowerS c2 = stripS (lowerS cand))
          = some c →
        map_alias_to_column getCols table cand = some c)
    ∧ (table ≠ "" → cand ≠ "" →
        (TABLE_CANONICAL_MAP table).lookup (stripS (lowerS cand)) = none →
        ((getCols table).getD []).find? (fun c2 => lowerS c2 = stripS (lowerS cand))
          = none →
        map_alias_to_column getCols table cand =
          ((getCols table).getD []).find? (fun c2 =>
            containsSubS (stripS (lowerS cand)) (lowerS c2) ||
            containsSubS (lowerS c2) (stripS (lowerS cand))))
    ∧ ((cand = "" ∨ table = "") → map_alias_to_column getCols table cand = none) := by
  refine ⟨?_, ?_, ?_, ?_, ?_, ?_, ?_, ?_⟩
  · intro hmem
    unfold resolveCol
    rw [if_pos (by simpa using hmem : ((getCols table).getD []).contains cand = true)]
  · intro m hnot hlook hmne hmm
    unfold resolveCol
    rw [if_neg (by simpa using hnot :
      ¬((getCols table).getD []).contains cand = true)]
    simp only [hlook]
    rw [if_pos ⟨hmne, by simpa using hmm⟩]
  · intro c hnot hgate hfind
    unfold resolveCol
    rw [if_neg (by simpa using hnot :
      ¬((getCols table).getD []).contains cand = true)]
    cases hl : (TABLE_CANONICAL_MAP table).lookup (lowerS cand) with
    | none => simp only [hl, hfind]
    | some m =>
      rw [hl] at hgate
      simp only [hl]
      rcases hgate with he | hm
      · rw [if_neg (fun h => h.1 he)]
        simp only [hfind]
      · rw [if_neg (fun h => absurd (by simpa using h.2 : m ∈ (getCols table).getD []) hm)]
        simp only [hfind]
  · intro hnot hgate hci
    unfold resolveCol
    rw [if_neg (by simpa using hnot :
      ¬((getCols table).getD []).contains cand = true)]
    cases hl : (TABLE_CANONICAL_MAP table).lookup (lowerS cand) with
    | none => simp only [hl, hci]
    | some m =>
      rw [hl] at hgate
      simp only [hl]
      rcases hgate with he | hm
      · rw [if_neg (fun h => h.1 he)]
        simp only [hci]
      · rw [if_neg (fun h => absurd (by simpa using h.2 : m ∈ (getCols table).getD []) hm)]
        simp only [hci]
  · intro target htne hcne hlook
    have hor : ¬(cand = "" ∨ table = "") := by
      rintro (h | h)
      · exact hcne h
      · exact htne h
    simp [map_alias_to_column, hor, hlook]
  · intro c htne hcne hlook hfind
    have hor : ¬(cand = "" ∨ table = "") := by
      rintro (h | h)
      · exact hcne h
      · exact htne h
    simp [map_alias_to_column, hor, hlook, hfind]
  · intro htne hcne hlook hci
    have hor : ¬(cand = "" ∨ table = "") := by
      rintro (h | h)
      · exact hcne h
      · exact htne h
    simp [map_alias_to_column, hor, hlook, hci]
  · intro hor
    simp [map_alias_to_column, hor]

/-- **C4** (witness): every rule exercised concretely — the same triple
resolves to itself under `_resolve_col` but to the canonical redirect under
`map_alias_to_column`; `amount` takes `_resolve_col`'s gated canonical rule;
`Total_Revenue` the case-insensitive rule of both; `revenue` the substring
rule of both; the empty candidate yields `None`. -/
theorem c4_resolver_order_witness :
    resolveCol churnGetCols "gold.churn_rate" "users" = .ok "users" ∧
    resolveCol mrrGetCols "gold.mrr" "amount" = .ok "total_revenue" ∧
    resolveCol mrrGetCols "gold.mrr" "Total_Revenue" = .ok "total_revenue" ∧
    resolveCol mrrGetCols "gold.mrr" "revenue" = .ok "total_revenue" ∧
    map_alias_to_column churnGetCols "gold.churn_rate" "users" = some "churned_users" ∧
    map_alias_to_column mrrGetCols "gold.mrr" "Total_Revenue" = some "total_revenue" ∧
    map_alias_to_column mrrGetCols "gold.mrr" "revenue" = some "total_revenue" ∧
    map_alias_to_column mrrGetCols "gold.mrr" "" = none := by
  refine ⟨(c4_resolver_order churnGetCols "gold.churn_rate" "users").1 (by decide),
    (c4_resolver_order mrrGetCols "gold.mrr" "amount").2.1 "total_revenue" (by decide)
      (by decide) (by decide) (by decide),
    (c4_resolver_order mrrGetCols "gold.mrr" "Total_Revenue").2.2.1 "total_revenue"
      (by decide) (by trivial) (by decide),
    ((c4_resolver_order mrrGetCols "gold.mrr" "revenue").2.2.2.1 (by decide) (by trivial)
      (by decide)).trans (by decide),
    (c4_resolver_order churnGetCols "gold.churn_rate" "users").2.2.2.2.1 "churned_users"
      (by decide) (by decide) (by decide),
    (c4_resolver_order mrrGetCols "gold.mrr" "Total_Revenue").2.2.2.2.2.1 "total_revenue"
      (by decide) (by decide) (by decide) (by decide),
    ((c4_resolver_order mrrGetCols "gold.mrr" "revenue").2.2.2.2.2.2.1 (by decide)
      (by decide) (by decide) (by decide)).trans (by decide),
    (c4_resolver_order mrrGetCols "gold.mrr" "").2.2.2.2.2.2.2 (Or.inl rfl)⟩

theorem isPrefixOf_to_take :
    ∀ {p l : List Char}, p.isPrefixOf l = true → ∃ r, l = p ++ r := by
  intro p
  induction p with
  | nil => exact fun {l} _ => ⟨l, rfl⟩
  | cons a p' ih =>
    intro l h
    cases l with
    | nil => exact absurd h (by simp [List.isPrefixOf])
    | cons b l' =>
      simp only [List.isPrefixOf, Bool.and_eq_true, beq_iff_eq] at h
      rcases ih h.2 with ⟨r, hr⟩
      exact ⟨r, by simp [h.1, hr]⟩

theorem kwLimitAt_sound {prev : Option Char} {s : List Char} {n : Nat}
    (h : kwLimitAt prev s = some n) :
    boundaryBefore prev = true ∧
    ∃ kw ws ds post,
      s = kw ++ ws ++ ds ++ post ∧
      lowerL kw ∈ LIMIT_KEYWORDS.map String.data ∧
      ws ≠ [] ∧ (∀ c ∈ ws, isWsChar c = true) ∧
      ds ≠ [] ∧ (∀ c ∈ ds, Char.isDigit c = true) ∧
      boundaryAfter post = true ∧
      digitsVal ds = n := by
  unfold kwLimitAt at h
  split at h
  case isFalse => exact Option.noConfusion h
  case isTrue hbnd =>
    refine ⟨hbnd, ?_⟩
    split at h
    · exact Option.noConfusion h
    next k hfind =>
      have hkpre : k.data.isPrefixOf (lowerL s) = true := by
        have := List.find?_some hfind
        simpa using this
      have hkmem : k ∈ LIMIT_KEYWORDS := List.mem_of_find?_eq_some hfind
      obtain ⟨r0, hr0⟩ := isPrefixOf_to_take hkpre
      split at h
      · exact Option.noConfusion h
      next hws =>
        split at h
        · exact Option.noConfusion h
        next hds =>
          split at h
          case isFalse => exact Option.noConfusion h
          case isTrue hba =>
            injection h with hn
            refine ⟨s.take k.data.length, (s.drop k.data.length).takeWhile isWsChar,
              ((s.drop k.data.length).dropWhile isWsChar).takeWhile Char.isDigit,
              ((s.drop k.data.length).dropWhile isWsChar).dropWhile Char.isDigit,
              ?_, ?_, ?_, ?_, ?_, ?_, ?_, ?_⟩
            · rw [List.append_assoc, List.append_assoc, List.takeWhile_append_dropWhile,
                List.takeWhile_append_dropWhile, List.take_append_drop]
            · refine List.mem_map.mpr ⟨k, hkmem, ?_⟩
              have h1 : lowerL (s.take k.data.length) = (lowerL s).take k.data.length := by
                simp [lowerL, List.map_take]
              rw [h1, hr0, List.take_left]
            · intro he
              rw [← List.isEmpty_iff] at he
              exact hws he
            · intro c hc
              exact List.mem_takeWhile_imp hc
            · intro he
              rw [← List.isEmpty_iff] at he
              exact hds he
            · intro c hc
              exact List.mem_takeWhile_imp hc
            · exact hba
            · exact hn

theorem kwLimitScan_sound (s : List Char) :
    ∀ (pre : List Char) (n : Nat),
      n ∈ kwLimitScan pre.getLast? s → KwCandidate (pre ++ s) n := by
  induction s with
  | nil =>
    intro pre n h
    simp [kwLimitScan] at h
  | cons c t ih =>
    intro pre n h
    cases hat : kwLimitAt pre.getLast? (c :: t) with
    | some m =>
      simp only [kwLimitScan, hat] at h
      rcases List.mem_cons.mp h with heq | hmem
      · subst heq
        obtain ⟨hb, kw, ws, ds, post, hdec, hkw, hwsne, hwsall, hdsne, hdsall, hba, hval⟩ :=
          kwLimitAt_sound hat
        refine ⟨pre, kw, ws, ds, post, ?_, hkw, ?_, hwsne, hwsall, hdsne, hdsall, hba, hval⟩
        · rw [hdec]
          simp [List.append_assoc]
        · cases hpl : pre.getLast? with
          | none => simp
          | some d =>
            rw [hpl] at hb
            simpa [boundaryBefore] using hb
      · have := ih (pre ++ [c]) n (by rwa [List.getLast?_concat])
        rwa [List.append_assoc, List.singleton_append] at this
    | none =>
      simp only [kwLimitScan, hat] at h
      have := ih (pre ++ [c]) n (by rwa [List.getLast?_concat])
      rwa [List.append_assoc, List.singleton_append] at this

/-- **C6** (counterexample to the claim as stated): the keyword branch keeps
the integers in text order, not with any preference among keywords, so for
"first 3 top 5" — a text containing "top 5" — the extracted limit is 3,
not 5. -/
theorem c6_limit_extraction_counterexample :
    computeLimit "first 3 top 5" = 3 ∧
    containsSubS "top 5" "first 3 top 5" = true ∧ (3 : Nat) ≠ 5 := by
  refine ⟨by decide, by decide, by decide⟩

/-- **C6** (amended): limit extraction prefers the keyword branch — every
number it returns there is an integer token immediately preceded by one of
top/limit/first/last (`KwCandidate`) and the whole branch is returned in
text order; when that branch is empty the fallback keeps exactly the
integers outside [1900, 2100]; the final limit is the first candidate,
clamped (0 falls back to the default, overflow to the row cap), and the
default is used when no candidate remains. In particular "top 5 in 2024"
yields 5. -/
theorem c6_limit_extraction (text : String) :
    (kwLimitScan none text.data ≠ [] →
      extract_ints_for_limit text = kwLimitScan none text.data) ∧
    (∀ n ∈ kwLimitScan none text.data, KwCandidate text.data n) ∧
    (kwLimitScan none text.data = [] →
      ∀ n ∈ extract_ints_for_limit text, n < 1900 ∨ n > 2100) ∧
    (∀ n rest, extract_ints_for_limit text = n :: rest →
      computeLimit text =
        if n = 0 then DEFAULT_LIMIT
        else if n > MAX_LIMIT_PER_QUERY.toNat then MAX_ROWS_RETURN.toNat else n) ∧
    (extract_ints_for_limit text = [] → computeLimit text = DEFAULT_LIMIT) ∧
    computeLimit "top 5 in 2024" = 5 := by
  refine ⟨?_, ?_, ?_, ?_, ?_, by decide⟩
  · intro hne
    unfold extract_ints_for_limit
    rcases eq_or_ne text "" with he | he
    · subst he
      exact absurd (by decide : kwLimitScan none "".data = []) hne
    · rw [if_neg he, if_pos hne]
  · intro n hn
    have := kwLimitScan_sound text.data [] n hn
    simpa using this
  · intro hemp n hn
    unfold extract_ints_for_limit at hn
    rcases eq_or_ne text "" with he | he
    · rw [if_pos he] at hn
      simp at hn
    · rw [if_neg he, if_neg (by simp [hemp])] at hn
      have := List.of_mem_filter hn
      simpa using this
  · intro n rest hx
    have hh : headLimit text = n := by
      unfold headLimit
      rw [hx]
    unfold computeLimit clampLimit
    rw [hh]
    by_cases h0 : n = 0
    · subst h0
      decide
    · rw [if_neg h0, if_neg h0]
  · intro hx
    have hh : headLimit text = DEFAULT_LIMIT := by
      unfold headLimit
      rw [hx]
    unfold computeLimit clampLimit
    rw [hh]
    decide

/-- Witness for C6: on "top 5 in 2024" the keyword branch fires and the
limit is 5; on "show 7 rows in 2024" the fallback keeps 7 (outside the
year range) and discards 2024. -/
theorem c6_limit_extraction_witness :
    KwCandidate "top 5 in 2024".data 5 ∧
    computeLimit "top 5 in 2024" = 5 ∧
    ((7 : Nat) < 1900 ∨ (7 : Nat) > 2100) := by
  refine ⟨(c6_limit_extraction "top 5 in 2024").2.1 5 (by decide),
    (c6_limit_extraction "top 5 in 2024").2.2.2.2.2,
    (c6_limit_extraction "show 7 rows in 2024").2.2.1 (by decide) 7 (by decide)⟩

@[simp]
theorem data_strOfChars (l : List Char) : (strOfChars l).data = l := rfl

theorem isPrefixOf_self_app : ∀ (p r : List Char), p.isPrefixOf (p ++ r) = true := by
  intro p
  induction p with
  | nil => intro r; simp [List.isPrefixOf]
  | cons a p' ih => intro r; simp [List.isPrefixOf, ih]

theorem findYear_shape :
    ∀ (s : List Char) (prev : Option Char) (yt : List Char),
      findYear prev s = some yt →
      ∃ c3 c4, yt = ['2', '0', c3, c4] ∧ c3.isDigit = true ∧ c4.isDigit = true := by
  intro s
  induction s with
  | nil =>
    intro prev yt h
    exact Option.noConfusion h
  | cons c t ih =>
    intro prev yt h
    cases hat : yearAt prev (c :: t) with
    | some y =>
      simp only [findYear, hat] at h
      injection h with hy
      subst hy
      unfold yearAt at hat
      split at hat
      case isFalse => exact Option.noConfusion hat
      case isTrue =>
        split at hat
        next d1 d2 d3 d4 rest heq =>
          split at hat
          case isFalse => exact Option.noConfusion hat
          case isTrue hcond =>
            injection hat with hy2
            exact ⟨d3, d4, by rw [← hy2, hcond.1, hcond.2.1], hcond.2.2.1, hcond.2.2.2.1⟩
        next => exact Option.noConfusion hat
    | none =>
      simp only [findYear, hat] at h
      exact ih _ _ h

theorem dateparser_parse_first_day (t : PyDate) (s : String) (r : List Char)
    (hs : s.data = "first day of ".data ++ r) :
    dateparser_parse t s =
      match monthYearOf r with
      | some (m, y) => some ⟨y, m, 1⟩
      | none => none := by
  unfold dateparser_parse
  rw [hs]
  rw [if_neg (by
    intro he
    have h1 : ("first day of ".data ++ r).head? = some 'f' := rfl
    rw [he] at h1
    exact absurd h1 (by decide))]
  rw [if_pos (isPrefixOf_self_app _ r)]
  have hd : ("first day of ".data ++ r).drop 13 = r := by
    rw [show (13 : Nat) = ("first day of ".data).length from rfl, List.drop_left]
  rw [hd]

theorem dateparser_parse_last_day (t : PyDate) (s : String) (r : List Char)
    (hs : s.data = "last day of ".data ++ r) :
    dateparser_parse t s =
      match monthYearOf r with
      | some (m, y) => some ⟨y, m, daysInMonth y m⟩
      | none => none := by
  unfold dateparser_parse
  rw [hs]
  rw [if_neg (by
    intro he
    have h1 : ("last day of ".data ++ r).head? = some 'l' := rfl
    rw [he] at h1
    exact absurd h1 (by decide))]
  rw [if_neg (by
    rw [show ("first day of ".data.isPrefixOf ("last day of ".data ++ r)) = false from rfl]
    exact Bool.false_ne_true)]
  rw [if_pos (isPrefixOf_self_app _ r)]
  have hd : ("last day of ".data ++ r).drop 12 = r := by
    rw [show (12 : Nat) = ("last day of ".data).length from rfl, List.drop_left]
  rw [hd]

theorem monthYearOf_january (c3 c4 : Char) (h3 : c3.isDigit = true) (h4 : c4.isDigit = true) :
    monthYearOf ("january ".data ++ ['2', '0', c3, c4]) =
      some (1, digitsVal ['2', '0', c3, c4]) := by
  simp [monthYearOf, MONTH_NAMES, lowerL, isWsChar, h3, h4]

theorem monthYearOf_december (c3 c4 : Char) (h3 : c3.isDigit = true) (h4 : c4.isDigit = true) :
    monthYearOf ("december ".data ++ ['2', '0', c3, c4]) =
      some (12, digitsVal ['2', '0', c3, c4]) := by
  simp [monthYearOf, MONTH_NAMES, lowerL, isWsChar, h3, h4]

/-- **C8** (counterexample to the claim as stated): `extract_date_range` is
not a function of the text alone — on "last 3 days" its result is anchored
to the current clock, so two calls on identical input at different dates
disagree. -/
theorem c8_extraction_determinism_counterexample :
    extract_date_range ⟨2025, 6, 15⟩ "last 3 days" ≠
      extract_date_range ⟨2025, 6, 20⟩ "last 3 days" := by
  decide

/-- **C8** (amended): when the explicit-year branch fires — the text
contains a `\b20\d{2}\b` token — `extract_date_range` is independent of
the clock, returning the first and last day of that year together with the
year token. -/
theorem c8_extraction_determinism (text : String) (yt : List Char) (t1 t2 : PyDate)
    (h : findYear none text.data = some yt) :
    extract_date_range t1 text = extract_date_range t2 text ∧
    extract_date_range t1 text =
      (some (isoDate ⟨digitsVal yt, 1, 1⟩), some (isoDate ⟨digitsVal yt, 12, 31⟩),
        some (strOfChars yt)) := by
  obtain ⟨c3, c4, hsh, h3, h4⟩ := findYear_shape text.data none yt h
  subst hsh
  have key : ∀ t : PyDate, extract_date_range t text =
      (some (isoDate ⟨digitsVal ['2', '0', c3, c4], 1, 1⟩),
       some (isoDate ⟨digitsVal ['2', '0', c3, c4], 12, 31⟩),
       some (strOfChars ['2', '0', c3, c4])) := by
    intro t
    have hne : text ≠ "" := by
      intro he
      rw [he] at h
      have h0 : findYear none "".data = none := rfl
      rw [h0] at h
      exact Option.noConfusion h
    have hp1 : dateparser_parse t ("first day of january " ++ strOfChars ['2', '0', c3, c4]) =
        some ⟨digitsVal ['2', '0', c3, c4], 1, 1⟩ := by
      rw [dateparser_parse_first_day t _ ("january ".data ++ ['2', '0', c3, c4])
        (by rw [String.data_append, data_strOfChars]; rfl)]
      rw [monthYearOf_january c3 c4 h3 h4]
    have hp2 : dateparser_parse t ("last day of december " ++ strOfChars ['2', '0', c3, c4]) =
        some ⟨digitsVal ['2', '0', c3, c4], 12, 31⟩ := by
      rw [dateparser_parse_last_day t _ ("december ".data ++ ['2', '0', c3, c4])
        (by rw [String.data_append, data_strOfChars]; rfl)]
      rw [monthYearOf_december c3 c4 h3 h4]
      rfl
    unfold extract_date_range
    rw [if_neg hne]
    simp only [h, hp1, hp2]
  exact ⟨(key t1).trans (key t2).symm, key t1⟩

/-- Witness for C8: "Show MRR for 2025" has an explicit year token, and the
extraction is clock-independent with the expected 2025 range. -/
theorem c8_extraction_determinism_witness :
    extract_date_range ⟨2025, 6, 15⟩ "Show MRR for 2025" =
      extract_date_range ⟨2026, 1, 1⟩ "Show MRR for 2025" ∧
    extract_date_range ⟨2025, 6, 15⟩ "Show MRR for 2025" =
      (some "2025-01-01", some "2025-12-31", some "2025") := by
  have h := c8_extraction_determinism "Show MRR for 2025" "2025".data
    ⟨2025, 6, 15⟩ ⟨2026, 1, 1⟩ (by decide)
  exact ⟨h.1, h.2.trans (by decide)⟩

/-- **C3** (code bug): on the spec's own example — "Show MRR by region for
2025" against `gold.mrr` with its full ColumnSet — the parser does not
return the claimed payload: the region pattern of
`extract_simple_filters_improved` matches ("for" followed by the blanks
left by the year-token removal), and line 254 reads the unassigned local
`candidate`, so the call raises `NameError` instead of returning. -/
theorem c3_parse_example_namerror :
    parse_nl_to_structured mrrGetCols ⟨2025, 6, 15⟩ "Show MRR by region for 2025"
      (some "gold.mrr") =
      .error "NameError: name 'candidate' is not defined" ∧
    parse_nl_to_structured mrrGetCols ⟨2025, 6, 15⟩ "Show MRR by region for 2025"
      (some "gold.mrr") ≠
      .ok ⟨{ table := "gold.mrr", columns := none,
             filters := [⟨"year", "=", .scalar (.pint 2025)⟩], group_by := ["region"],
             agg := [("total_revenue_sum", "total_revenue")],
             order_by := [⟨"total_revenue_sum", "desc"⟩], limit := some 50 }, "select"⟩ := by
  refine ⟨by decide, by decide⟩
